import Mathlib

/-!
# Verification of the `bitcoin-blockchain` educational node

A shallow embedding, in Lean 4, of the Python sources of the
`bitcoin-blockchain` repository, together with theorems settling the
frozen claims C1..C10 about its specification.

Modelling conventions, used uniformly below:

* Python `bytes` values are modelled as `List Nat` (one entry per byte).
  The repository stores all hashes, transaction ids and scripts as
  lowercase hex *strings*; a well-formed hex string of length `2*n`
  denotes exactly one `n`-byte sequence, and we model such a string by
  the byte sequence it denotes (in the same, "display", order).  The
  hex encoding/decoding performed by `bytes_to_hex` / `hex_to_bytes`
  at the string boundary is therefore the identity of the model.
* Python unbounded `int`s are `Nat` where the source guarantees
  non-negativity and `Int` where negative values can occur
  (output values, block heights, timestamp differences).
* `double_sha256` is an external hash oracle (`src/crypto/hash.py`
  wraps `hashlib`); all chain-level definitions take it as an explicit
  parameter `d : List Nat → List Nat` returning the 32-byte digest.
* Python exceptions are modelled by `Option`/`Except` with an error
  type that distinguishes the exception *classes* the source catches
  (`ValidationError`, `ValueError`, `TypeError`, `KeyError`); the
  messages themselves are irrelevant to control flow and are omitted.
* Python `dict`s (insertion ordered) are association lists; assignment
  to an existing key replaces the value in place, assignment to a new
  key appends.
* Python `float` (only used for mempool fee rates) is modelled by `ℚ`;
  no claim depends on float rounding.

Definitions are translated from the Python sources; each definition's
doc comment names the function it embeds.
-/

namespace BtcChain

/-- Model of Python `bytes`: a list of byte values. -/
abbrev Bytes := List Nat

/-- `src/utils/encoding.py int_to_little_endian`: `value.to_bytes(length, 'little')`.
Python raises `OverflowError` if `value ≥ 256^length`; the round-trip theorems
assume the in-range case and this model truncates out-of-range values. -/
def int_to_little_endian (value : Nat) : (length : Nat) → Bytes
  | 0 => []
  | n + 1 => value % 256 :: int_to_little_endian (value / 256) n

/-- `src/utils/encoding.py little_endian_to_int`: `int.from_bytes(data, 'little')`. -/
def little_endian_to_int : Bytes → Nat
  | [] => 0
  | b :: bs => b + 256 * little_endian_to_int bs

/-- `int(hex_string, 16)` on a display-order hash, i.e. the big-endian value
of the byte sequence the hex string denotes (used by
`BlockHeader.meets_difficulty_target`). -/
def big_endian_to_int (data : Bytes) : Nat :=
  data.foldl (fun acc b => acc * 256 + b) 0

/-- `src/utils/encoding.py encode_varint`. -/
def encode_varint (value : Nat) : Bytes :=
  if value < 0xfd then [value]
  else if value ≤ 0xffff then 0xfd :: int_to_little_endian value 2
  else if value ≤ 0xffffffff then 0xfe :: int_to_little_endian value 4
  else 0xff :: int_to_little_endian value 8

/-- `src/utils/encoding.py decode_varint` (reading at offset 0; callers pass
the suffix of the buffer).  `none` models the `ValueError`s raised on
insufficient data. -/
def decode_varint : Bytes → Option (Nat × Nat)
  | [] => none
  | b :: rest =>
    if b < 0xfd then some (b, 1)
    else if b = 0xfd then
      if 2 ≤ rest.length then some (little_endian_to_int (rest.take 2), 3) else none
    else if b = 0xfe then
      if 4 ≤ rest.length then some (little_endian_to_int (rest.take 4), 5) else none
    else
      if 8 ≤ rest.length then some (little_endian_to_int (rest.take 8), 9) else none

/-- The all-zero 32-byte hash, the model of the `"0" * 64` sentinel. -/
def zeroHash : Bytes := List.replicate 32 0

/-- `src/core/transaction.py TransactionOutput` (`pubkey_script` is the byte
sequence its hex string denotes). -/
structure TransactionOutput where
  value : Int
  pubkey_script : Bytes
deriving DecidableEq, Inhabited

/-- `src/core/transaction.py TransactionInput`. -/
structure TransactionInput where
  previous_txid : Bytes
  previous_output_index : Nat
  signature_script : Bytes
  sequence : Nat
deriving DecidableEq, Inhabited

/-- `src/core/transaction.py Transaction` (the cached `_txid` is recomputed on
demand; it is modelled by the function `txid` below). -/
structure Transaction where
  version : Nat
  inputs : List TransactionInput
  outputs : List TransactionOutput
  locktime : Nat
deriving DecidableEq, Inhabited

/-- `src/core/block.py BlockHeader` (hash fields in display order, as the
stored hex strings). -/
structure BlockHeader where
  version : Nat
  previous_block_hash : Bytes
  merkle_root : Bytes
  timestamp : Nat
  difficulty_bits : Nat
  nonce : Nat
deriving DecidableEq, Inhabited

/-- `src/core/block.py Block` (the externally assigned `_height` lives in the
block store, see `StoredBlock`). -/
structure Block where
  header : BlockHeader
  transactions : List Transaction
deriving DecidableEq, Inhabited

/-- `TransactionInput.is_coinbase`. -/
def TransactionInput.is_coinbase (i : TransactionInput) : Bool :=
  i.previous_txid = zeroHash && i.previous_output_index = 0xffffffff

/-- `Transaction.is_coinbase`. -/
def Transaction.is_coinbase (tx : Transaction) : Bool :=
  tx.inputs.length = 1 && (tx.inputs.headD default).is_coinbase

/-- `TransactionOutput.serialize`. -/
def serialize_output (o : TransactionOutput) : Bytes :=
  int_to_little_endian o.value.toNat 8
    ++ encode_varint o.pubkey_script.length
    ++ o.pubkey_script

/-- `TransactionOutput.deserialize` (offset 0; slices mirror Python slicing,
which silently truncates; `none` only where Python raises). -/
def deserialize_output (data : Bytes) : Option (TransactionOutput × Nat) := do
  let value := little_endian_to_int (data.take 8)
  let (script_length, varint_size) ← decode_varint (data.drop 8)
  let script := (data.drop (8 + varint_size)).take script_length
  pure (⟨(value : Int), script⟩, 8 + varint_size + script_length)

/-- `TransactionInput.serialize`.  The `if self.signature_script` truthiness
test of the source only distinguishes the empty script, which decodes to the
empty byte sequence either way. -/
def serialize_input (i : TransactionInput) : Bytes :=
  i.previous_txid.reverse
    ++ int_to_little_endian i.previous_output_index 4
    ++ encode_varint i.signature_script.length
    ++ i.signature_script
    ++ int_to_little_endian i.sequence 4

/-- `TransactionInput.deserialize` (offset 0). -/
def deserialize_input (data : Bytes) : Option (TransactionInput × Nat) := do
  let txid := (data.take 32).reverse
  let idx := little_endian_to_int ((data.drop 32).take 4)
  let (script_length, varint_size) ← decode_varint (data.drop 36)
  let script := (data.drop (36 + varint_size)).take script_length
  let seq := little_endian_to_int ((data.drop (36 + varint_size + script_length)).take 4)
  pure (⟨txid, idx, script, seq⟩, 36 + varint_size + script_length + 4)

/-- `Transaction.serialize`. -/
def serialize_transaction (tx : Transaction) : Bytes :=
  int_to_little_endian tx.version 4
    ++ encode_varint tx.inputs.length
    ++ (tx.inputs.map serialize_input).flatten
    ++ encode_varint tx.outputs.length
    ++ (tx.outputs.map serialize_output).flatten
    ++ int_to_little_endian tx.locktime 4

/-- The `for _ in range(input_count)` loop of `Transaction.deserialize`. -/
def deserialize_inputs (data : Bytes) : Nat → Option (List TransactionInput × Nat)
  | 0 => some ([], 0)
  | n + 1 => do
    let (i, c) ← deserialize_input data
    let (is, c') ← deserialize_inputs (data.drop c) n
    pure (i :: is, c + c')

/-- The `for _ in range(output_count)` loop of `Transaction.deserialize`. -/
def deserialize_outputs (data : Bytes) : Nat → Option (List TransactionOutput × Nat)
  | 0 => some ([], 0)
  | n + 1 => do
    let (o, c) ← deserialize_output data
    let (os, c') ← deserialize_outputs (data.drop c) n
    pure (o :: os, c + c')

/-- `Transaction.deserialize` (offset 0). -/
def deserialize_transaction (data : Bytes) : Option (Transaction × Nat) := do
  let version := little_endian_to_int (data.take 4)
  let (input_count, v1) ← decode_varint (data.drop 4)
  let (inputs, cin) ← deserialize_inputs (data.drop (4 + v1)) input_count
  let (output_count, v2) ← decode_varint (data.drop (4 + v1 + cin))
  let (outputs, cout) ← deserialize_outputs (data.drop (4 + v1 + cin + v2)) output_count
  let locktime := little_endian_to_int ((data.drop (4 + v1 + cin + v2 + cout)).take 4)
  pure (⟨version, inputs, outputs, locktime⟩, 4 + v1 + cin + v2 + cout + 4)

/-- `BlockHeader.serialize` (hash fields are written in internal byte order,
i.e. reversed from display order). -/
def serialize_block_header (h : BlockHeader) : Bytes :=
  int_to_little_endian h.version 4
    ++ h.previous_block_hash.reverse
    ++ h.merkle_root.reverse
    ++ int_to_little_endian h.timestamp 4
    ++ int_to_little_endian h.difficulty_bits 4
    ++ int_to_little_endian h.nonce 4

/-- `BlockHeader.deserialize` (offset 0; the explicit `< 80` check raises
`ValueError` in the source, modelled by `none`). -/
def deserialize_block_header (data : Bytes) : Option (BlockHeader × Nat) :=
  if data.length < 80 then none
  else some (⟨little_endian_to_int (data.take 4),
             ((data.drop 4).take 32).reverse,
             ((data.drop 36).take 32).reverse,
             little_endian_to_int ((data.drop 68).take 4),
             little_endian_to_int ((data.drop 72).take 4),
             little_endian_to_int ((data.drop 76).take 4)⟩, 80)

/-- `src/utils/serialization.py serialize_block`. -/
def serialize_block (b : Block) : Bytes :=
  serialize_block_header b.header
    ++ encode_varint b.transactions.length
    ++ (b.transactions.map serialize_transaction).flatten

/-- The `for _ in range(tx_count)` loop of
`src/utils/serialization.py deserialize_block`. -/
def deserialize_transactions (data : Bytes) : Nat → Option (List Transaction × Nat)
  | 0 => some ([], 0)
  | n + 1 => do
    let (t, c) ← deserialize_transaction data
    let (ts, c') ← deserialize_transactions (data.drop c) n
    pure (t :: ts, c + c')

/-- `src/utils/serialization.py deserialize_block` (offset 0). -/
def deserialize_block (data : Bytes) : Option (Block × Nat) := do
  let (header, hs) ← deserialize_block_header data
  let (tx_count, vs) ← decode_varint (data.drop hs)
  let (txs, cs) ← deserialize_transactions (data.drop (hs + vs)) tx_count
  pure (⟨header, txs⟩, hs + vs + cs)

/-! ### Well-formedness

A value is *well-formed* when its hex-string fields denote genuine byte
sequences of the required lengths and its integer fields fit the
serialized widths — exactly the values `serialize` accepts in Python
without raising. -/

/-- All entries are byte values. -/
def WFBytes (bs : Bytes) : Prop := ∀ b ∈ bs, b < 256

/-- Well-formed transaction output. -/
def WFOutput (o : TransactionOutput) : Prop :=
  0 ≤ o.value ∧ o.value < 2 ^ 64 ∧ WFBytes o.pubkey_script ∧
  o.pubkey_script.length < 2 ^ 64

/-- Well-formed transaction input. -/
def WFInput (i : TransactionInput) : Prop :=
  i.previous_txid.length = 32 ∧ WFBytes i.previous_txid ∧
  i.previous_output_index < 2 ^ 32 ∧ WFBytes i.signature_script ∧
  i.signature_script.length < 2 ^ 64 ∧ i.sequence < 2 ^ 32

/-- Well-formed transaction. -/
def WFTransaction (tx : Transaction) : Prop :=
  tx.version < 2 ^ 32 ∧ tx.inputs.length < 2 ^ 64 ∧
  (∀ i ∈ tx.inputs, WFInput i) ∧ tx.outputs.length < 2 ^ 64 ∧
  (∀ o ∈ tx.outputs, WFOutput o) ∧ tx.locktime < 2 ^ 32

/-- Well-formed block header. -/
def WFHeader (h : BlockHeader) : Prop :=
  h.version < 2 ^ 32 ∧
  h.previous_block_hash.length = 32 ∧ WFBytes h.previous_block_hash ∧
  h.merkle_root.length = 32 ∧ WFBytes h.merkle_root ∧
  h.timestamp < 2 ^ 32 ∧ h.difficulty_bits < 2 ^ 32 ∧ h.nonce < 2 ^ 32

/-- Well-formed block. -/
def WFBlock (b : Block) : Prop :=
  WFHeader b.header ∧ b.transactions.length < 2 ^ 64 ∧
  ∀ tx ∈ b.transactions, WFTransaction tx

/-! ### Round-trip lemmas -/

theorem length_int_to_little_endian (v n : Nat) :
    (int_to_little_endian v n).length = n := by
  induction n generalizing v with
  | zero => rfl
  | succ k ih => simp [int_to_little_endian, ih]

theorem little_endian_roundtrip (v n : Nat) :
    little_endian_to_int (int_to_little_endian v n) = v % 256 ^ n := by
  induction n generalizing v with
  | zero => simp [int_to_little_endian, little_endian_to_int, Nat.mod_one]
  | succ k ih =>
    simp only [int_to_little_endian, little_endian_to_int, ih]
    rw [pow_succ', Nat.mod_mul]

theorem little_endian_roundtrip_of_lt {v n : Nat} (h : v < 256 ^ n) :
    little_endian_to_int (int_to_little_endian v n) = v := by
  rw [little_endian_roundtrip, Nat.mod_eq_of_lt h]

theorem take_append_of_length {α : Type} {l r : List α} {n : Nat}
    (h : l.length = n) : (l ++ r).take n = l := by
  subst h; simp

theorem drop_append_of_length {α : Type} {l r : List α} {n : Nat}
    (h : l.length = n) : (l ++ r).drop n = r := by
  subst h; simp

theorem decode_varint_roundtrip (v : Nat) (hv : v < 2 ^ 64) (rest : Bytes) :
    decode_varint (encode_varint v ++ rest) =
      some (v, (encode_varint v).length) := by
  unfold encode_varint
  split
  · simp only [List.cons_append, decode_varint, List.length_cons, List.length_nil]
    simp [*]
  · split
    · have htake : (int_to_little_endian v 2 ++ rest).take 2 = int_to_little_endian v 2 :=
        take_append_of_length (length_int_to_little_endian v 2)
      have hlen : 2 ≤ (int_to_little_endian v 2 ++ rest).length := by
        simp [length_int_to_little_endian]
      simp only [List.cons_append, decode_varint]
      norm_num [hlen, htake, little_endian_roundtrip_of_lt (show v < 256 ^ 2 by omega),
        length_int_to_little_endian]
    · split
      · have htake : (int_to_little_endian v 4 ++ rest).take 4 = int_to_little_endian v 4 :=
          take_append_of_length (length_int_to_little_endian v 4)
        have hlen : 4 ≤ (int_to_little_endian v 4 ++ rest).length := by
          simp [length_int_to_little_endian]
        simp only [List.cons_append, decode_varint]
        norm_num [hlen, htake, little_endian_roundtrip_of_lt (show v < 256 ^ 4 by omega),
          length_int_to_little_endian]
      · have htake : (int_to_little_endian v 8 ++ rest).take 8 = int_to_little_endian v 8 :=
          take_append_of_length (length_int_to_little_endian v 8)
        have hlen : 8 ≤ (int_to_little_endian v 8 ++ rest).length := by
          simp [length_int_to_little_endian]
        have hv8 : v < 256 ^ 8 := by norm_num at hv ⊢; omega
        simp only [List.cons_append, decode_varint]
        norm_num [hlen, htake, little_endian_roundtrip_of_lt hv8,
          length_int_to_little_endian]

theorem drop_append_add {α : Type} {l r : List α} {n m : Nat}
    (h : l.length = n) : (l ++ r).drop (n + m) = r.drop m := by
  subst h
  rw [← List.drop_drop, drop_append_of_length rfl]

theorem roundtrip_output {o : TransactionOutput} (h : WFOutput o) (rest : Bytes) :
    deserialize_output (serialize_output o ++ rest) =
      some (o, (serialize_output o).length) := by
  obtain ⟨h0, h64, _, hlen⟩ := h
  have hv : o.value.toNat < 256 ^ 8 := by
    have h28 : (256 : Nat) ^ 8 = 2 ^ 64 := by norm_num
    rw [h28]; omega
  have l1 := length_int_to_little_endian o.value.toNat 8
  unfold deserialize_output
  have e1 : serialize_output o ++ rest =
      int_to_little_endian o.value.toNat 8 ++
        (encode_varint o.pubkey_script.length ++ (o.pubkey_script ++ rest)) := by
    simp [serialize_output]
  rw [e1, take_append_of_length l1, drop_append_of_length l1,
    little_endian_roundtrip_of_lt hv, decode_varint_roundtrip _ hlen]
  simp only [Option.bind_eq_bind, Option.some_bind]
  rw [drop_append_add l1, drop_append_of_length rfl, take_append_of_length rfl]
  simp only [Option.some.injEq, Prod.mk.injEq, pure]
  refine ⟨by congr 1; omega, ?_⟩
  simp [serialize_output, l1]
  omega

theorem read_at {α : Type} {data pre suf : List α} {k : Nat}
    (h : data = pre ++ suf) (hl : pre.length = k) : data.drop k = suf := by
  subst hl; rw [h, drop_append_of_length rfl]

theorem take_at {α : Type} {data pre suf : List α} {k : Nat}
    (h : data = pre ++ suf) (hl : pre.length = k) : data.take k = pre := by
  subst hl; rw [h, take_append_of_length rfl]

theorem roundtrip_input {i : TransactionInput} (h : WFInput i) (rest : Bytes) :
    deserialize_input (serialize_input i ++ rest) =
      some (i, (serialize_input i).length) := by
  obtain ⟨h32, _, hidx, _, hslen, hseq⟩ := h
  have lA : i.previous_txid.reverse.length = 32 := by simp [h32]
  have lB := length_int_to_little_endian i.previous_output_index 4
  have lE := length_int_to_little_endian i.sequence 4
  have e1 : serialize_input i ++ rest =
      i.previous_txid.reverse ++
        (int_to_little_endian i.previous_output_index 4 ++
          (encode_varint i.signature_script.length ++
            (i.signature_script ++ (int_to_little_endian i.sequence 4 ++ rest)))) := by
    simp [serialize_input]
  have e2 : serialize_input i ++ rest =
      (i.previous_txid.reverse ++ int_to_little_endian i.previous_output_index 4) ++
        (encode_varint i.signature_script.length ++
          (i.signature_script ++ (int_to_little_endian i.sequence 4 ++ rest))) := by
    simp [serialize_input]
  unfold deserialize_input
  rw [take_at e1 lA, List.reverse_reverse,
    read_at e1 lA, take_append_of_length lB,
    little_endian_roundtrip_of_lt (by omega),
    read_at e2 (by simp [h32, length_int_to_little_endian]), decode_varint_roundtrip _ hslen]
  simp only [Option.bind_eq_bind, Option.some_bind]
  have e3 : serialize_input i ++ rest =
      ((i.previous_txid.reverse ++ int_to_little_endian i.previous_output_index 4) ++
          encode_varint i.signature_script.length) ++
        (i.signature_script ++ (int_to_little_endian i.sequence 4 ++ rest)) := by
    simp [serialize_input]
  have e4 : serialize_input i ++ rest =
      (((i.previous_txid.reverse ++ int_to_little_endian i.previous_output_index 4) ++
          encode_varint i.signature_script.length) ++ i.signature_script) ++
        (int_to_little_endian i.sequence 4 ++ rest) := by
    simp [serialize_input]
  rw [read_at e3 (by simp [h32, length_int_to_little_endian]; omega), take_append_of_length rfl,
    read_at e4 (by simp [h32, length_int_to_little_endian]; omega), take_append_of_length lE,
    little_endian_roundtrip_of_lt (by omega),
    show 36 + (encode_varint i.signature_script.length).length +
        i.signature_script.length + 4 = (serialize_input i).length by
      simp [serialize_input, length_int_to_little_endian, h32]; omega]
  rfl

theorem roundtrip_inputs {is : List TransactionInput} (h : ∀ i ∈ is, WFInput i)
    (rest : Bytes) :
    deserialize_inputs ((is.map serialize_input).flatten ++ rest) is.length =
      some (is, ((is.map serialize_input).flatten).length) := by
  induction is generalizing rest with
  | nil => simp [deserialize_inputs]
  | cons i tl ih =>
    simp only [List.map_cons, List.flatten_cons, List.length_cons, deserialize_inputs,
      List.append_assoc]
    rw [roundtrip_input (h i (by simp)) _]
    simp only [Option.bind_eq_bind, Option.some_bind]
    rw [drop_append_of_length rfl, ih (fun j hj => h j (by simp [hj]))]
    simp

theorem roundtrip_outputs {os : List TransactionOutput} (h : ∀ o ∈ os, WFOutput o)
    (rest : Bytes) :
    deserialize_outputs ((os.map serialize_output).flatten ++ rest) os.length =
      some (os, ((os.map serialize_output).flatten).length) := by
  induction os generalizing rest with
  | nil => simp [deserialize_outputs]
  | cons o tl ih =>
    simp only [List.map_cons, List.flatten_cons, List.length_cons, deserialize_outputs,
      List.append_assoc]
    rw [roundtrip_output (h o (by simp)) _]
    simp only [Option.bind_eq_bind, Option.some_bind]
    rw [drop_append_of_length rfl, ih (fun j hj => h j (by simp [hj]))]
    simp

theorem roundtrip_transaction {tx : Transaction} (h : WFTransaction tx) (rest : Bytes) :
    deserialize_transaction (serialize_transaction tx ++ rest) =
      some (tx, (serialize_transaction tx).length) := by
  obtain ⟨hver, hilen, hins, holen, houts, hlock⟩ := h
  have lV := length_int_to_little_endian tx.version 4
  have lT := length_int_to_little_endian tx.locktime 4
  have e1 : serialize_transaction tx ++ rest =
      int_to_little_endian tx.version 4 ++
        (encode_varint tx.inputs.length ++
          ((tx.inputs.map serialize_input).flatten ++
            (encode_varint tx.outputs.length ++
              ((tx.outputs.map serialize_output).flatten ++
                (int_to_little_endian tx.locktime 4 ++ rest))))) := by
    simp [serialize_transaction]
  have e2 : serialize_transaction tx ++ rest =
      (int_to_little_endian tx.version 4 ++ encode_varint tx.inputs.length) ++
        ((tx.inputs.map serialize_input).flatten ++
          (encode_varint tx.outputs.length ++
            ((tx.outputs.map serialize_output).flatten ++
              (int_to_little_endian tx.locktime 4 ++ rest)))) := by
    simp [serialize_transaction]
  have e3 : serialize_transaction tx ++ rest =
      ((int_to_little_endian tx.version 4 ++ encode_varint tx.inputs.length) ++
          (tx.inputs.map serialize_input).flatten) ++
        (encode_varint tx.outputs.length ++
          ((tx.outputs.map serialize_output).flatten ++
            (int_to_little_endian tx.locktime 4 ++ rest))) := by
    simp [serialize_transaction]
  have e4 : serialize_transaction tx ++ rest =
      (((int_to_little_endian tx.version 4 ++ encode_varint tx.inputs.length) ++
            (tx.inputs.map serialize_input).flatten) ++
          encode_varint tx.outputs.length) ++
        ((tx.outputs.map serialize_output).flatten ++
          (int_to_little_endian tx.locktime 4 ++ rest)) := by
    simp [serialize_transaction]
  have e5 : serialize_transaction tx ++ rest =
      ((((int_to_little_endian tx.version 4 ++ encode_varint tx.inputs.length) ++
              (tx.inputs.map serialize_input).flatten) ++
            encode_varint tx.outputs.length) ++
          (tx.outputs.map serialize_output).flatten) ++
        (int_to_little_endian tx.locktime 4 ++ rest) := by
    simp [serialize_transaction]
  unfold deserialize_transaction
  rw [take_at e1 lV, little_endian_roundtrip_of_lt (by omega),
    read_at e1 lV, decode_varint_roundtrip _ hilen]
  simp only [Option.bind_eq_bind, Option.some_bind]
  rw [read_at e2 (by simp [length_int_to_little_endian]), roundtrip_inputs hins]
  simp only [Option.bind_eq_bind, Option.some_bind]
  rw [read_at e3 (by simp [length_int_to_little_endian]; omega), decode_varint_roundtrip _ holen]
  simp only [Option.bind_eq_bind, Option.some_bind]
  rw [read_at e4 (by simp [length_int_to_little_endian]; omega), roundtrip_outputs houts]
  simp only [Option.bind_eq_bind, Option.some_bind]
  rw [read_at e5 (by simp [length_int_to_little_endian]; omega), take_append_of_length lT,
    little_endian_roundtrip_of_lt (by omega),
    show 4 + (encode_varint tx.inputs.length).length +
        (tx.inputs.map serialize_input).flatten.length +
        (encode_varint tx.outputs.length).length +
        (tx.outputs.map serialize_output).flatten.length + 4 =
        (serialize_transaction tx).length by
      simp [serialize_transaction, length_int_to_little_endian]; omega]
  rfl

theorem length_serialize_block_header (h : BlockHeader)
    (h1 : h.previous_block_hash.length = 32) (h2 : h.merkle_root.length = 32) :
    (serialize_block_header h).length = 80 := by
  simp [serialize_block_header, length_int_to_little_endian, h1, h2]

theorem roundtrip_block_header {h : BlockHeader} (hw : WFHeader h) (rest : Bytes) :
    deserialize_block_header (serialize_block_header h ++ rest) =
      some (h, 80) := by
  obtain ⟨hver, hp32, _, hm32, _, hts, hbits, hnonce⟩ := hw
  have lV := length_int_to_little_endian h.version 4
  have e1 : serialize_block_header h ++ rest =
      int_to_little_endian h.version 4 ++
        (h.previous_block_hash.reverse ++
          (h.merkle_root.reverse ++
            (int_to_little_endian h.timestamp 4 ++
              (int_to_little_endian h.difficulty_bits 4 ++
                (int_to_little_endian h.nonce 4 ++ rest))))) := by
    simp [serialize_block_header]
  have e2 : serialize_block_header h ++ rest =
      (int_to_little_endian h.version 4 ++ h.previous_block_hash.reverse) ++
        (h.merkle_root.reverse ++
          (int_to_little_endian h.timestamp 4 ++
            (int_to_little_endian h.difficulty_bits 4 ++
              (int_to_little_endian h.nonce 4 ++ rest)))) := by
    simp [serialize_block_header]
  have e3 : serialize_block_header h ++ rest =
      ((int_to_little_endian h.version 4 ++ h.previous_block_hash.reverse) ++
          h.merkle_root.reverse) ++
        (int_to_little_endian h.timestamp 4 ++
          (int_to_little_endian h.difficulty_bits 4 ++
            (int_to_little_endian h.nonce 4 ++ rest))) := by
    simp [serialize_block_header]
  have e4 : serialize_block_header h ++ rest =
      (((int_to_little_endian h.version 4 ++ h.previous_block_hash.reverse) ++
            h.merkle_root.reverse) ++ int_to_little_endian h.timestamp 4) ++
        (int_to_little_endian h.difficulty_bits 4 ++
          (int_to_little_endian h.nonce 4 ++ rest)) := by
    simp [serialize_block_header]
  have e5 : serialize_block_header h ++ rest =
      ((((int_to_little_endian h.version 4 ++ h.previous_block_hash.reverse) ++
              h.merkle_root.reverse) ++ int_to_little_endian h.timestamp 4) ++
          int_to_little_endian h.difficulty_bits 4) ++
        (int_to_little_endian h.nonce 4 ++ rest) := by
    simp [serialize_block_header]
  unfold deserialize_block_header
  rw [if_neg (by simp [e1, hp32, hm32, length_int_to_little_endian]; omega)]
  rw [take_at e1 lV]
  rw [little_endian_roundtrip_of_lt (by omega)]
  rw [read_at e1 lV]
  rw [take_append_of_length (by simp [hp32])]
  rw [List.reverse_reverse]
  rw [read_at e2 (by simp [hp32, length_int_to_little_endian])]
  rw [take_append_of_length (by simp [hm32])]
  rw [List.reverse_reverse]
  rw [read_at e3 (by simp [hp32, hm32, length_int_to_little_endian])]
  rw [take_append_of_length (length_int_to_little_endian h.timestamp 4)]
  rw [little_endian_roundtrip_of_lt (by omega)]
  rw [read_at e4 (by simp [hp32, hm32, length_int_to_little_endian])]
  rw [take_append_of_length (length_int_to_little_endian h.difficulty_bits 4)]
  rw [little_endian_roundtrip_of_lt (by omega)]
  rw [read_at e5 (by simp [hp32, hm32, length_int_to_little_endian])]
  rw [take_append_of_length (length_int_to_little_endian h.nonce 4)]
  rw [little_endian_roundtrip_of_lt (by omega)]

theorem roundtrip_transactions {ts : List Transaction} (h : ∀ t ∈ ts, WFTransaction t)
    (rest : Bytes) :
    deserialize_transactions ((ts.map serialize_transaction).flatten ++ rest) ts.length =
      some (ts, ((ts.map serialize_transaction).flatten).length) := by
  induction ts generalizing rest with
  | nil => simp [deserialize_transactions]
  | cons t tl ih =>
    simp only [List.map_cons, List.flatten_cons, List.length_cons, deserialize_transactions,
      List.append_assoc]
    rw [roundtrip_transaction (h t (by simp)) _]
    simp only [Option.bind_eq_bind, Option.some_bind]
    rw [drop_append_of_length rfl, ih (fun j hj => h j (by simp [hj]))]
    simp

theorem roundtrip_block {b : Block} (hw : WFBlock b) (rest : Bytes) :
    deserialize_block (serialize_block b ++ rest) =
      some (b, (serialize_block b).length) := by
  obtain ⟨hh, htlen, hts⟩ := hw
  have l80 := length_serialize_block_header b.header hh.2.1 hh.2.2.2.1
  have e1 : serialize_block b ++ rest =
      serialize_block_header b.header ++
        (encode_varint b.transactions.length ++
          ((b.transactions.map serialize_transaction).flatten ++ rest)) := by
    simp [serialize_block]
  have e2 : serialize_block b ++ rest =
      (serialize_block_header b.header ++ encode_varint b.transactions.length) ++
        ((b.transactions.map serialize_transaction).flatten ++ rest) := by
    simp [serialize_block]
  unfold deserialize_block
  rw [e1, roundtrip_block_header hh]
  simp only [Option.bind_eq_bind, Option.some_bind]
  rw [← e1, read_at e1 l80, decode_varint_roundtrip _ htlen]
  simp only [Option.bind_eq_bind, Option.some_bind]
  rw [read_at e2 (by simp [l80]), roundtrip_transactions hts]
  simp only [Option.bind_eq_bind, Option.some_bind]
  rw [show 80 + (encode_varint b.transactions.length).length +
        (b.transactions.map serialize_transaction).flatten.length =
        (serialize_block b).length by
      simp [serialize_block, l80]; omega]
  rfl

instance (bs : Bytes) : Decidable (WFBytes bs) :=
  List.decidableBAll _ bs

instance (o : TransactionOutput) : Decidable (WFOutput o) := by
  unfold WFOutput; infer_instance

instance (i : TransactionInput) : Decidable (WFInput i) := by
  unfold WFInput; infer_instance

instance (tx : Transaction) : Decidable (WFTransaction tx) := by
  unfold WFTransaction; infer_instance

instance (h : BlockHeader) : Decidable (WFHeader h) := by
  unfold WFHeader; infer_instance

instance (b : Block) : Decidable (WFBlock b) := by
  unfold WFBlock; infer_instance

/-- C8: for every well-formed block header, transaction input, transaction
output, transaction, or block `x`, deserializing the serialization of `x`
yields a value structurally equal to `x`, and reports exactly the
serialized length as the number of bytes consumed. -/
theorem c8_serialization_roundtrip :
    (∀ h : BlockHeader, WFHeader h →
      deserialize_block_header (serialize_block_header h) =
        some (h, (serialize_block_header h).length)) ∧
    (∀ i : TransactionInput, WFInput i →
      deserialize_input (serialize_input i) =
        some (i, (serialize_input i).length)) ∧
    (∀ o : TransactionOutput, WFOutput o →
      deserialize_output (serialize_output o) =
        some (o, (serialize_output o).length)) ∧
    (∀ tx : Transaction, WFTransaction tx →
      deserialize_transaction (serialize_transaction tx) =
        some (tx, (serialize_transaction tx).length)) ∧
    (∀ b : Block, WFBlock b →
      deserialize_block (serialize_block b) =
        some (b, (serialize_block b).length)) := by
  refine ⟨fun h hw => ?_, fun i hw => ?_, fun o hw => ?_, fun tx hw => ?_,
    fun b hw => ?_⟩
  · have := roundtrip_block_header hw []
    rw [List.append_nil] at this
    rw [this, length_serialize_block_header h hw.2.1 hw.2.2.2.1]
  · have := roundtrip_input hw []
    rwa [List.append_nil] at this
  · have := roundtrip_output hw []
    rwa [List.append_nil] at this
  · have := roundtrip_transaction hw []
    rwa [List.append_nil] at this
  · have := roundtrip_block hw []
    rwa [List.append_nil] at this

/-- A small concrete block used to witness C8: a coinbase-style transaction
paying to a 20-byte script. -/
def c8Input : TransactionInput :=
  ⟨zeroHash, 0xffffffff, [1, 0, 0, 0, 0, 0, 0, 0, 0, 0], 0xffffffff⟩

/-- Concrete output for the C8 witness. -/
def c8Output : TransactionOutput :=
  ⟨5000000000, List.replicate 20 0⟩

/-- Concrete transaction for the C8 witness. -/
def c8Tx : Transaction := ⟨1, [c8Input], [c8Output], 0⟩

/-- Concrete header for the C8 witness. -/
def c8Header : BlockHeader := ⟨1, zeroHash, zeroHash, 1231006505, 0x1d00ffff, 0⟩

/-- Concrete block for the C8 witness. -/
def c8Block : Block := ⟨c8Header, [c8Tx]⟩

/-- Witness for C8 at concrete values. -/
theorem c8_serialization_roundtrip_witness :
    (WFHeader c8Header ∧
      deserialize_block_header (serialize_block_header c8Header) =
        some (c8Header, (serialize_block_header c8Header).length)) ∧
    (WFTransaction c8Tx ∧
      deserialize_transaction (serialize_transaction c8Tx) =
        some (c8Tx, (serialize_transaction c8Tx).length)) ∧
    (WFBlock c8Block ∧
      deserialize_block (serialize_block c8Block) =
        some (c8Block, (serialize_block c8Block).length)) :=
  ⟨⟨by decide, c8_serialization_roundtrip.1 c8Header (by decide)⟩,
   ⟨by decide, c8_serialization_roundtrip.2.2.2.1 c8Tx (by decide)⟩,
   ⟨by decide, c8_serialization_roundtrip.2.2.2.2 c8Block (by decide)⟩⟩

/-! ### Compact difficulty encoding (`src/mining/miner.py`) -/

/-- `src/mining/miner.py compact_bits_to_target`.  `none` models the
`ValueError` raised for `bits <= 0` (negative values cannot arise for the
`Nat`-valued argument).  Python's arithmetic right shift on a possibly
negative coefficient is `Int.fdiv` by the corresponding power of two. -/
def compact_bits_to_target (bits : Nat) : Option Nat :=
  if bits = 0 then none
  else
    let exponent := (bits >>> 24) &&& 0xFF
    let coefficient : Int :=
      if bits &&& 0x800000 ≠ 0 then -((bits &&& 0x7FFFFF : Nat) : Int)
      else ((bits &&& 0x7FFFFF : Nat) : Int)
    let target : Int :=
      if exponent ≤ 3 then Int.fdiv coefficient (2 ^ (8 * (3 - exponent)))
      else coefficient * 2 ^ (8 * (exponent - 3))
    some (if target < 0 then 0 else target.toNat)

/-- Fuelled helper for `bit_length`: on fuel `> n` it computes the number
of binary digits of `n`. -/
def bit_length_go : Nat → Nat → Nat
  | 0, _ => 0
  | fuel + 1, n => if n = 0 then 0 else bit_length_go fuel (n / 2) + 1

/-- Python `int.bit_length()` on a natural number, written with structural
(fuelled) recursion so that it evaluates by reduction inside proofs
(`Nat.log2` is defined by well-founded recursion and does not;
`bit_length_spec` below relates the two). -/
def bit_length (n : Nat) : Nat := bit_length_go (n + 1) n

/-- `src/mining/miner.py target_to_compact_bits`.  Python's
`target.bit_length()` is `bit_length target`; the top three bytes of the
big-endian encoding of `target` (`target_bytes[:3]`, padded with trailing
zeros when shorter than three bytes) are the shown shift of `target`. -/
def target_to_compact_bits (target : Nat) : Nat :=
  if target = 0 then 0
  else
    let byte_length := (bit_length target + 7) / 8
    let exponent := byte_length
    let coefficient :=
      if 3 ≤ byte_length then target >>> (8 * (byte_length - 3))
      else target <<< (8 * (3 - byte_length))
    if coefficient &&& 0x800000 ≠ 0 then
      ((exponent + 1) <<< 24) ||| ((coefficient >>> 8) &&& 0x7FFFFF)
    else
      (exponent <<< 24) ||| (coefficient &&& 0x7FFFFF)

/-- A compact encoding is *canonical* when it has the shortest-form exponent
and a clear sign bit: the coefficient's top byte region is used
(`0x8000 ≤ b &&& 0xFFFFFF`, so the exponent cannot be reduced without setting
the sign bit), the sign bit is clear, and for the small exponents 1 and 2 the
bits that the decoder truncates are zero.  `target_to_compact_bits_canonical`
shows these are exactly the encodings `target_to_compact_bits` produces on
positive targets. -/
def IsCanonicalBits (b : Nat) : Prop :=
  b < 2 ^ 32 ∧
  b &&& 0x800000 = 0 ∧
  1 ≤ b >>> 24 ∧
  0x8000 ≤ b &&& 0xFFFFFF ∧
  (b >>> 24 = 1 → 0x10000 ≤ b &&& 0xFFFFFF ∧ (b &&& 0xFFFFFF) % 0x10000 = 0) ∧
  (b >>> 24 = 2 → (b &&& 0xFFFFFF) % 0x100 = 0)

instance (b : Nat) : Decidable (IsCanonicalBits b) := by
  unfold IsCanonicalBits; infer_instance

/-! #### Arithmetic helpers for the compact encoding -/

theorem bit_length_go_spec (fuel : Nat) : ∀ n : Nat, n < fuel →
    bit_length_go fuel n = if n = 0 then 0 else Nat.log2 n + 1 := by
  induction fuel with
  | zero => intro n h; omega
  | succ fuel ih =>
    intro n h
    by_cases hn : n = 0
    · subst hn; rfl
    · have hdiv : n / 2 < n := Nat.div_lt_self (by omega) (by norm_num)
      have : bit_length_go (fuel + 1) n = bit_length_go fuel (n / 2) + 1 := by
        simp [bit_length_go, hn]
      rw [this, ih (n / 2) (by omega)]
      by_cases h2 : n / 2 = 0
      · have hn1 : n = 1 := by omega
        subst hn1
        rw [if_pos rfl]
        rw [Nat.log2]
        norm_num
      · rw [if_neg h2]
        have hge : 2 ≤ n := by omega
        conv_rhs => rw [Nat.log2]
        rw [if_pos hge, if_neg hn]

/-- Python's `int.bit_length()` agrees with `Nat.log2 + 1` on positive
numbers (and is `0` at `0`). -/
theorem bit_length_spec (n : Nat) :
    bit_length n = if n = 0 then 0 else Nat.log2 n + 1 :=
  bit_length_go_spec (n + 1) n (by omega)

theorem testBit_small_add_mul_pow (a b k i : Nat) (hik : i < k) :
    (b + a * 2 ^ k).testBit i = b.testBit i := by
  rw [Nat.testBit_to_div_mod, Nat.testBit_to_div_mod]
  have e : b + a * 2 ^ k = b + (a * 2 ^ (k - i)) * 2 ^ i := by
    have hk : k - i + i = k := by omega
    rw [Nat.mul_assoc, ← pow_add, hk]
  rw [e, Nat.add_mul_div_right _ _ (Nat.pos_pow_of_pos i (by norm_num))]
  have e2 : a * 2 ^ (k - i) = (a * 2 ^ (k - i - 1)) * 2 := by
    have hk : k - i - 1 + 1 = k - i := by omega
    rw [Nat.mul_assoc, ← pow_succ, hk]
  rw [e2, Nat.add_mul_mod_self_right]

theorem testBit_high_add_mul_pow (a b k i : Nat) (h : b < 2 ^ k) (hik : k ≤ i) :
    (b + a * 2 ^ k).testBit i = a.testBit (i - k) := by
  rw [Nat.testBit_to_div_mod, Nat.testBit_to_div_mod]
  have h1 : 2 ^ i = 2 ^ k * 2 ^ (i - k) := by
    have hk : k + (i - k) = i := by omega
    rw [← pow_add, hk]
  rw [h1, ← Nat.div_div_eq_div_mul,
    Nat.add_mul_div_right _ _ (Nat.pos_pow_of_pos k (by norm_num)),
    Nat.div_eq_of_lt h]
  simp

theorem lor_shiftLeft_eq_add (a b k : Nat) (h : b < 2 ^ k) :
    (a <<< k) ||| b = a * 2 ^ k + b := by
  apply Nat.eq_of_testBit_eq
  intro i
  rw [Nat.add_comm (a * 2 ^ k) b]
  rcases lt_or_ge i k with hik | hik
  · rw [Nat.testBit_lor, Nat.testBit_shiftLeft, testBit_small_add_mul_pow a b k i hik]
    simp [show ¬ k ≤ i by omega]
  · rw [Nat.testBit_lor, Nat.testBit_shiftLeft, testBit_high_add_mul_pow a b k i h hik]
    have hb : b.testBit i = false :=
      Nat.testBit_lt_two_pow (lt_of_lt_of_le h (Nat.pow_le_pow_right (by norm_num) hik))
    simp [hb, hik]

theorem lor_mul_pow_eq_add (a b k : Nat) (h : b < 2 ^ k) :
    a * 2 ^ k ||| b = a * 2 ^ k + b := by
  have h' := lor_shiftLeft_eq_add a b k h
  rwa [Nat.shiftLeft_eq] at h'

theorem and_signbit_eq_zero_of_lt {x : Nat} (h : x < 2 ^ 23) :
    x &&& 0x800000 = 0 := by
  rw [show (0x800000 : Nat) = 2 ^ 23 by norm_num, Nat.and_two_pow,
    Nat.testBit_lt_two_pow h]
  simp

theorem and_signbit_ne_zero {x : Nat} (h1 : 2 ^ 23 ≤ x) (h2 : x < 2 ^ 24) :
    x &&& 0x800000 ≠ 0 := by
  rw [show (0x800000 : Nat) = 2 ^ 23 by norm_num, Nat.and_two_pow]
  have ht : x.testBit 23 = true := by
    rw [Nat.testBit_to_div_mod]
    simp only [decide_eq_true_eq]
    omega
  simp [ht]

theorem and_mask23_of_lt {x : Nat} (h : x < 2 ^ 23) : x &&& 0x7FFFFF = x := by
  rw [show (0x7FFFFF : Nat) = 2 ^ 23 - 1 by norm_num,
    Nat.and_pow_two_sub_one_eq_mod, Nat.mod_eq_of_lt h]

theorem byte_length_eq {t L : Nat} (hL : 1 ≤ L) (h1 : 2 ^ (8 * (L - 1)) ≤ t)
    (h2 : t < 2 ^ (8 * L)) : (Nat.log2 t + 1 + 7) / 8 = L := by
  have ht : t ≠ 0 := by
    have := Nat.pos_pow_of_pos (8 * (L - 1)) (show 0 < 2 by norm_num)
    omega
  have hk1 : 2 ^ Nat.log2 t ≤ t := Nat.log2_self_le ht
  have hk2 : t < 2 ^ (Nat.log2 t + 1) := Nat.lt_log2_self
  set k := Nat.log2 t with hk
  have hlow : 8 * (L - 1) < k + 1 := by
    by_contra hcon
    push_neg at hcon
    have := Nat.pow_le_pow_right (show 1 ≤ 2 by norm_num) hcon
    omega
  have hhigh : k < 8 * L := by
    by_contra hcon
    push_neg at hcon
    have := Nat.pow_le_pow_right (show 1 ≤ 2 by norm_num) hcon
    omega
  omega

theorem compact_bits_to_target_sign_clear {b : Nat} (hb : b ≠ 0)
    (hs : b &&& 0x800000 = 0) :
    compact_bits_to_target b =
      some (if (b >>> 24) &&& 0xFF ≤ 3
              then (b &&& 0x7FFFFF) / 2 ^ (8 * (3 - ((b >>> 24) &&& 0xFF)))
              else (b &&& 0x7FFFFF) * 2 ^ (8 * (((b >>> 24) &&& 0xFF) - 3))) := by
  unfold compact_bits_to_target
  rw [if_neg hb]
  have hcond : ¬ (b &&& 0x800000 ≠ 0) := by simp [hs]
  simp only [if_neg hcond]
  congr 1
  split
  · have e1 : ((b &&& 0x7FFFFF : Nat) : Int).fdiv
        ((2 : Int) ^ (8 * (3 - ((b >>> 24) &&& 0xFF)))) =
        (((b &&& 0x7FFFFF) / 2 ^ (8 * (3 - ((b >>> 24) &&& 0xFF))) : Nat) : Int) := by
      rw [show ((2 : Int) ^ (8 * (3 - ((b >>> 24) &&& 0xFF)))) =
          ((2 ^ (8 * (3 - ((b >>> 24) &&& 0xFF))) : Nat) : Int) by push_cast; ring]
      rw [Int.fdiv_eq_tdiv (Int.natCast_nonneg _) (Int.natCast_nonneg _)]
      rfl
    rw [e1, if_neg (not_lt.mpr (Int.natCast_nonneg _)), Int.toNat_natCast]
  · have e2 : ((b &&& 0x7FFFFF : Nat) : Int) *
        ((2 : Int) ^ (8 * (((b >>> 24) &&& 0xFF) - 3))) =
        (((b &&& 0x7FFFFF) * 2 ^ (8 * (((b >>> 24) &&& 0xFF) - 3)) : Nat) : Int) := by
      push_cast
      ring
    rw [e2, if_neg (not_lt.mpr (Int.natCast_nonneg _)), Int.toNat_natCast]

theorem target_to_compact_bits_eq {t L : Nat} (hL : 1 ≤ L)
    (h1 : 2 ^ (8 * (L - 1)) ≤ t) (h2 : t < 2 ^ (8 * L)) :
    target_to_compact_bits t =
      (if (if 3 ≤ L then t >>> (8 * (L - 3)) else t <<< (8 * (3 - L)))
            &&& 0x800000 ≠ 0 then
        ((L + 1) <<< 24) |||
          (((if 3 ≤ L then t >>> (8 * (L - 3)) else t <<< (8 * (3 - L))) >>> 8)
            &&& 0x7FFFFF)
      else
        (L <<< 24) |||
          ((if 3 ≤ L then t >>> (8 * (L - 3)) else t <<< (8 * (3 - L)))
            &&& 0x7FFFFF)) := by
  have ht : t ≠ 0 := by
    have := Nat.pos_pow_of_pos (8 * (L - 1)) (show 0 < 2 by norm_num)
    omega
  unfold target_to_compact_bits
  rw [if_neg ht, bit_length_spec, if_neg ht, byte_length_eq hL h1 h2]

/-- Every encoding produced by `target_to_compact_bits` on a positive target
is canonical; `IsCanonicalBits` is thus not an ad-hoc restriction but the
image of the encoder. -/
theorem isCanonical_map_aux {e c : Nat} (he1 : 1 ≤ e) (he8 : e < 2 ^ 8)
    (hc8 : 0x8000 ≤ c) (hc23 : c < 2 ^ 23)
    (hE1 : e = 1 → 0x10000 ≤ c ∧ c % 0x10000 = 0)
    (hE2 : e = 2 → c % 0x100 = 0) :
    IsCanonicalBits ((e <<< 24) ||| c) := by
  have hor : (e <<< 24) ||| c = e * 2 ^ 24 + c :=
    lor_shiftLeft_eq_add e c 24 (by omega)
  have p23 : (2 : Nat) ^ 23 = 0x800000 := by norm_num
  have p24 : (2 : Nat) ^ 24 = 0x1000000 := by norm_num
  have p8 : (2 : Nat) ^ 8 = 0x100 := by norm_num
  have p32 : (2 : Nat) ^ 32 = 0x100000000 := by norm_num
  have hmod : (e * 2 ^ 24 + c) % 2 ^ 24 = c := by
    rw [Nat.add_comm, Nat.add_mul_mod_self_right, Nat.mod_eq_of_lt (by omega)]
  have hdiv : (e * 2 ^ 24 + c) / 2 ^ 24 = e := by
    rw [Nat.add_comm, Nat.add_mul_div_right _ _ (by norm_num), Nat.div_eq_of_lt (by omega)]
    omega
  have hshift : ((e <<< 24) ||| c) >>> 24 = e := by
    rw [hor, Nat.shiftRight_eq_div_pow, hdiv]
  have hand : ((e <<< 24) ||| c) &&& 0xFFFFFF = c := by
    rw [hor, show (0xFFFFFF : Nat) = 2 ^ 24 - 1 by norm_num,
      Nat.and_pow_two_sub_one_eq_mod, hmod]
  refine ⟨?_, ?_, ?_, ?_, ?_, ?_⟩
  · rw [hor]; omega
  · rw [hor, show (0x800000 : Nat) = 2 ^ 23 by norm_num, Nat.and_two_pow]
    have htb23 : (e * 2 ^ 24 + c).testBit 23 = false := by
      rw [Nat.testBit_to_div_mod]
      simp only [decide_eq_false_iff_not]
      omega
    rw [htb23]
    simp
  · rw [hshift]; omega
  · rw [hand]; omega
  · rw [hshift, hand]; exact hE1
  · rw [hshift, hand]; exact hE2

theorem compact_roundtrip_core (e c : Nat) (he1 : 1 ≤ e) (he8 : e < 2 ^ 8)
    (hc8 : 0x8000 ≤ c) (hc23 : c < 2 ^ 23)
    (hE1 : e = 1 → 0x10000 ≤ c ∧ c % 0x10000 = 0)
    (hE2 : e = 2 → c % 0x100 = 0) :
    target_to_compact_bits
        (if e ≤ 3 then c / 2 ^ (8 * (3 - e)) else c * 2 ^ (8 * (e - 3)))
      = e * 2 ^ 24 + c := by
  rcases Nat.lt_or_ge e 4 with he4 | he4
  · -- e ∈ {1, 2, 3}: the decoder divides by a power of two
    rw [if_pos (by omega)]
    rcases (show e = 1 ∨ e = 2 ∨ e = 3 by omega) with he | he | he
    · -- e = 1
      obtain ⟨hc16, hcm⟩ := hE1 he
      subst he
      rw [show 8 * (3 - 1) = 16 by norm_num]
      have hct : c / 2 ^ 16 * 2 ^ 16 = c :=
        Nat.div_mul_cancel (Nat.dvd_of_mod_eq_zero (by norm_num at hcm ⊢; omega))
      have p16 : (2 : Nat) ^ 16 = 65536 := by norm_num
      rw [target_to_compact_bits_eq (L := 1) (by norm_num)
        (by norm_num; omega) (by norm_num; omega)]
      simp only [if_neg (show ¬ (3 : Nat) ≤ 1 by norm_num), Nat.shiftLeft_eq,
        show 8 * (3 - 1) = 16 by norm_num]
      rw [hct, if_neg (by simp [and_signbit_eq_zero_of_lt hc23]),
        and_mask23_of_lt hc23, lor_mul_pow_eq_add _ _ _ (by omega)]
    · -- e = 2
      have hcm := hE2 he
      subst he
      rw [show 8 * (3 - 2) = 8 by norm_num]
      have hct : c / 2 ^ 8 * 2 ^ 8 = c :=
        Nat.div_mul_cancel (Nat.dvd_of_mod_eq_zero (by norm_num at hcm ⊢; omega))
      have p8 : (2 : Nat) ^ 8 = 256 := by norm_num
      rcases Nat.lt_or_ge (c / 2 ^ 8) 0x100 with htlt | htge
      · -- one-byte target: the encoder pads, then shifts out the sign bit
        rw [target_to_compact_bits_eq (L := 1) (by norm_num)
          (by norm_num; omega) (by norm_num; omega)]
        simp only [if_neg (show ¬ (3 : Nat) ≤ 1 by norm_num), Nat.shiftLeft_eq,
          show 8 * (3 - 1) = 16 by norm_num]
        have hsign : c / 2 ^ 8 * 2 ^ 16 &&& 0x800000 ≠ 0 :=
          and_signbit_ne_zero (by norm_num; omega) (by norm_num; omega)
        rw [if_pos hsign, Nat.shiftRight_eq_div_pow]
        have hdv : c / 2 ^ 8 * 2 ^ 16 / 2 ^ 8 = c := by
          rw [show (2 : Nat) ^ 16 = 2 ^ 8 * 2 ^ 8 by norm_num, ← Nat.mul_assoc,
            Nat.mul_div_cancel _ (by norm_num)]
          exact hct
        rw [hdv, and_mask23_of_lt hc23, lor_mul_pow_eq_add _ _ _ (by omega)]
      · -- two-byte target: plain coefficient with a zero pad byte
        rw [target_to_compact_bits_eq (L := 2) (by norm_num)
          (by norm_num; omega) (by norm_num; omega)]
        simp only [if_neg (show ¬ (3 : Nat) ≤ 2 by norm_num), Nat.shiftLeft_eq,
          show 8 * (3 - 2) = 8 by norm_num]
        rw [hct, if_neg (by simp [and_signbit_eq_zero_of_lt hc23]),
          and_mask23_of_lt hc23, lor_mul_pow_eq_add _ _ _ (by omega)]
    · -- e = 3: the decoder is the identity on the coefficient
      subst he
      rw [show 8 * (3 - 3) = 0 by norm_num, pow_zero, Nat.div_one]
      rcases Nat.lt_or_ge c 0x10000 with hclt | hcge
      · rw [target_to_compact_bits_eq (L := 2) (by norm_num)
          (by norm_num; omega) (by norm_num; omega)]
        simp only [if_neg (show ¬ (3 : Nat) ≤ 2 by norm_num), Nat.shiftLeft_eq,
          show 8 * (3 - 2) = 8 by norm_num]
        have hsign : c * 2 ^ 8 &&& 0x800000 ≠ 0 :=
          and_signbit_ne_zero (by norm_num; omega) (by norm_num; omega)
        rw [if_pos hsign, Nat.shiftRight_eq_div_pow,
          Nat.mul_div_cancel _ (by norm_num),
          and_mask23_of_lt hc23, lor_mul_pow_eq_add _ _ _ (by omega)]
      · rw [target_to_compact_bits_eq (L := 3) (by norm_num)
          (by norm_num; omega) (by norm_num; omega)]
        simp only [if_pos (show (3 : Nat) ≤ 3 by norm_num),
          Nat.shiftRight_eq_div_pow, show 8 * (3 - 3) = 0 by norm_num, pow_zero,
          Nat.div_one]
        rw [if_neg (by simp [and_signbit_eq_zero_of_lt hc23]),
          and_mask23_of_lt hc23, lor_shiftLeft_eq_add _ _ _ (by omega)]
  · -- e ≥ 4: the decoder multiplies by a power of two
    rw [if_neg (by omega)]
    rcases Nat.lt_or_ge c 0x10000 with hclt | hcge
    · -- two-byte coefficient: byte length e - 1, the sign shift restores e
      have hL1 : 2 ^ (8 * (e - 1 - 1)) ≤ c * 2 ^ (8 * (e - 3)) := by
        have h15 : (2 : Nat) ^ 15 ≤ c := by norm_num; omega
        calc 2 ^ (8 * (e - 1 - 1)) = 2 ^ 15 * 2 ^ (8 * (e - 3) - 7) := by
              rw [← pow_add]
              congr 1
              omega
          _ ≤ c * 2 ^ (8 * (e - 3) - 7) := Nat.mul_le_mul_right _ h15
          _ ≤ c * 2 ^ (8 * (e - 3)) :=
              Nat.mul_le_mul_left _ (Nat.pow_le_pow_right (by norm_num) (by omega))
      have hL2 : c * 2 ^ (8 * (e - 3)) < 2 ^ (8 * (e - 1)) := by
        have h16 : c < 2 ^ 16 := by norm_num; omega
        calc c * 2 ^ (8 * (e - 3)) < 2 ^ 16 * 2 ^ (8 * (e - 3)) :=
              (Nat.mul_lt_mul_right (Nat.pos_pow_of_pos _ (by norm_num))).mpr h16
          _ = 2 ^ (8 * (e - 1)) := by
              rw [← pow_add]
              congr 1
              omega
      rw [target_to_compact_bits_eq (L := e - 1) (by omega) hL1 hL2]
      simp only [if_pos (show 3 ≤ e - 1 by omega), Nat.shiftRight_eq_div_pow]
      have hcoef : c * 2 ^ (8 * (e - 3)) / 2 ^ (8 * (e - 1 - 3)) = c * 2 ^ 8 := by
        rw [show 8 * (e - 3) = 8 * (e - 1 - 3) + 8 by omega, pow_add,
          ← Nat.mul_assoc, Nat.mul_assoc,
          Nat.mul_comm (2 ^ (8 * (e - 1 - 3))) (2 ^ 8), ← Nat.mul_assoc,
          Nat.mul_div_cancel _ (Nat.pos_pow_of_pos _ (by norm_num))]
      rw [hcoef]
      have hsign : c * 2 ^ 8 &&& 0x800000 ≠ 0 :=
        and_signbit_ne_zero (by norm_num; omega) (by norm_num; omega)
      rw [if_pos hsign, Nat.mul_div_cancel _ (by norm_num),
        and_mask23_of_lt hc23, lor_shiftLeft_eq_add _ _ _ (by omega),
        show e - 1 + 1 = e by omega]
    · -- three-byte coefficient: byte length e, no sign shift
      have hL1 : 2 ^ (8 * (e - 1)) ≤ c * 2 ^ (8 * (e - 3)) := by
        have h16 : (2 : Nat) ^ 16 ≤ c := by norm_num; omega
        calc 2 ^ (8 * (e - 1)) = 2 ^ 16 * 2 ^ (8 * (e - 3)) := by
              rw [← pow_add]
              congr 1
              omega
          _ ≤ c * 2 ^ (8 * (e - 3)) := Nat.mul_le_mul_right _ h16
      have hL2 : c * 2 ^ (8 * (e - 3)) < 2 ^ (8 * e) := by
        calc c * 2 ^ (8 * (e - 3)) < 2 ^ 23 * 2 ^ (8 * (e - 3)) :=
              (Nat.mul_lt_mul_right (Nat.pos_pow_of_pos _ (by norm_num))).mpr hc23
          _ ≤ 2 ^ (8 * e) := by
              rw [← pow_add]
              exact Nat.pow_le_pow_right (by norm_num) (by omega)
      rw [target_to_compact_bits_eq (L := e) (by omega) hL1 hL2]
      simp only [if_pos (show 3 ≤ e by omega), Nat.shiftRight_eq_div_pow]
      rw [Nat.mul_div_cancel _ (Nat.pos_pow_of_pos _ (by norm_num)),
        if_neg (by simp [and_signbit_eq_zero_of_lt hc23]),
        and_mask23_of_lt hc23, lor_shiftLeft_eq_add _ _ _ (by omega)]

/-- C9: for every canonical compact difficulty encoding `b` (shortest-form
exponent, sign bit clear), expanding `b` to its full target with
`compact_bits_to_target` and re-encoding it with `target_to_compact_bits`
returns `b` itself. -/
theorem c9_compact_bits_roundtrip :
    ∀ b : Nat, IsCanonicalBits b →
      (compact_bits_to_target b).map target_to_compact_bits = some b := by
  intro b hc
  obtain ⟨h32, hs, he1, hc8, hE1, hE2⟩ := hc
  have hed : b >>> 24 = b / 2 ^ 24 := Nat.shiftRight_eq_div_pow b 24
  have hcd : b &&& 0xFFFFFF = b % 2 ^ 24 := by
    rw [show (0xFFFFFF : Nat) = 2 ^ 24 - 1 by norm_num, Nat.and_pow_two_sub_one_eq_mod]
  -- sign bit clear forces the low 24 bits below 2^23
  have htb : b.testBit 23 = false := by
    by_contra hcon
    rw [Bool.not_eq_false] at hcon
    have h2p := Nat.and_two_pow b 23
    rw [hcon, show (2 : Nat) ^ 23 = 0x800000 by norm_num] at h2p
    rw [hs] at h2p
    simp at h2p
  have hb23 : (b / 2 ^ 23) % 2 = 0 := by
    rw [Nat.testBit_to_div_mod] at htb
    simp only [decide_eq_false_iff_not] at htb
    omega
  have hc23 : b % 2 ^ 24 < 2 ^ 23 := by omega
  have hm23 : b % 2 ^ 23 = b % 2 ^ 24 := by omega
  have hmask : b &&& 0x7FFFFF = b % 2 ^ 24 := by
    rw [show (0x7FFFFF : Nat) = 2 ^ 23 - 1 by norm_num,
      Nat.and_pow_two_sub_one_eq_mod, hm23]
  have he8 : b / 2 ^ 24 < 2 ^ 8 := by omega
  have hexp : (b >>> 24) &&& 0xFF = b / 2 ^ 24 := by
    rw [hed, show (0xFF : Nat) = 2 ^ 8 - 1 by norm_num,
      Nat.and_pow_two_sub_one_eq_mod, Nat.mod_eq_of_lt he8]
  have hbne : b ≠ 0 := by
    have := Nat.mod_le b (2 ^ 24)
    rw [hcd] at hc8
    omega
  rw [hed] at he1 hE1 hE2
  rw [hcd] at hc8 hE1 hE2
  rw [compact_bits_to_target_sign_clear hbne hs, hexp, hmask]
  simp only [Option.map_some']
  rw [compact_roundtrip_core (b / 2 ^ 24) (b % 2 ^ 24) he1 he8 hc8 hc23 hE1 hE2]
  congr 1
  omega

/-- Witness for C9 at the mainnet genesis difficulty `0x1d00ffff`. -/
theorem c9_compact_bits_roundtrip_witness :
    IsCanonicalBits 0x1d00ffff ∧
      (compact_bits_to_target 0x1d00ffff).map target_to_compact_bits =
        some 0x1d00ffff :=
  ⟨by decide, c9_compact_bits_roundtrip 0x1d00ffff (by decide)⟩

/-- The canonical predicate is the image of the encoder: every compact value
produced by `target_to_compact_bits` on a positive target below `2^256` (the
proof-of-work domain; larger targets would need an exponent beyond one byte)
is canonical.  Supporting fact for the reading of "canonical" used in C9. -/
theorem target_to_compact_bits_canonical (t : Nat) (ht : 0 < t)
    (ht256 : t < 2 ^ 256) : IsCanonicalBits (target_to_compact_bits t) := by
  have htne : t ≠ 0 := by omega
  have hk1 : 2 ^ Nat.log2 t ≤ t := Nat.log2_self_le htne
  have hk2 : t < 2 ^ (Nat.log2 t + 1) := Nat.lt_log2_self
  set k := Nat.log2 t with hkdef
  set L := (k + 1 + 7) / 8 with hLdef
  have hL1 : 1 ≤ L := by omega
  have hlow : 8 * (L - 1) ≤ k := by omega
  have hhigh : k + 1 ≤ 8 * L := by omega
  have hbound1 : 2 ^ (8 * (L - 1)) ≤ t :=
    le_trans (Nat.pow_le_pow_right (by norm_num) hlow) hk1
  have hbound2 : t < 2 ^ (8 * L) :=
    lt_of_lt_of_le hk2 (Nat.pow_le_pow_right (by norm_num) hhigh)
  have hk255 : k ≤ 255 := by
    by_contra hcon
    push_neg at hcon
    have := Nat.pow_le_pow_right (show 1 ≤ 2 by norm_num) (show 256 ≤ k by omega)
    omega
  have hL32 : L ≤ 32 := by omega
  have hcoef2 :
      (if 3 ≤ L then t >>> (8 * (L - 3)) else t <<< (8 * (3 - L))) < 2 ^ 24 := by
    split
    · rw [Nat.shiftRight_eq_div_pow]
      have : t / 2 ^ (8 * (L - 3)) < 2 ^ (8 * L) / 2 ^ (8 * (L - 3)) + 1 := by
        have hd := Nat.div_le_div_right (c := 2 ^ (8 * (L - 3))) (Nat.le_of_lt hbound2)
        omega
      have he : (2 : Nat) ^ (8 * L) / 2 ^ (8 * (L - 3)) = 2 ^ 24 := by
        rw [Nat.pow_div (by omega) (by norm_num), show 8 * L - 8 * (L - 3) = 24 by omega]
      have hdlt : t / 2 ^ (8 * (L - 3)) < 2 ^ 24 := by
        have hstrict : t / 2 ^ (8 * (L - 3)) < 2 ^ 24 ∨
            t / 2 ^ (8 * (L - 3)) = 2 ^ 24 ∨ t / 2 ^ (8 * (L - 3)) > 2 ^ 24 := by omega
        rcases hstrict with h | h | h
        · exact h
        · exfalso
          have := Nat.div_mul_le_self t (2 ^ (8 * (L - 3)))
          rw [h] at this
          have : (2 : Nat) ^ 24 * 2 ^ (8 * (L - 3)) ≤ t := this
          rw [← pow_add, show 24 + 8 * (L - 3) = 8 * L by omega] at this
          omega
        · exfalso
          have hge : 2 ^ 24 * 2 ^ (8 * (L - 3)) ≤
              (t / 2 ^ (8 * (L - 3))) * 2 ^ (8 * (L - 3)) :=
            Nat.mul_le_mul_right _ (by omega)
          have := Nat.div_mul_le_self t (2 ^ (8 * (L - 3)))
          rw [← pow_add, show 24 + 8 * (L - 3) = 8 * L by omega] at hge
          omega
      exact hdlt
    · rw [Nat.shiftLeft_eq]
      have h3L : L < 3 := by omega
      calc t * 2 ^ (8 * (3 - L)) < 2 ^ (8 * L) * 2 ^ (8 * (3 - L)) :=
            (Nat.mul_lt_mul_right (Nat.pos_pow_of_pos _ (by norm_num))).mpr hbound2
        _ = 2 ^ 24 := by rw [← pow_add, show 8 * L + 8 * (3 - L) = 24 by omega]
  have hcoef1 :
      2 ^ 16 ≤ (if 3 ≤ L then t >>> (8 * (L - 3)) else t <<< (8 * (3 - L))) := by
    split
    · rw [Nat.shiftRight_eq_div_pow]
      have hd := Nat.div_le_div_right (c := 2 ^ (8 * (L - 3))) hbound1
      have he : (2 : Nat) ^ (8 * (L - 1)) / 2 ^ (8 * (L - 3)) = 2 ^ 16 := by
        rw [Nat.pow_div (by omega) (by norm_num),
          show 8 * (L - 1) - 8 * (L - 3) = 16 by omega]
      omega
    · rw [Nat.shiftLeft_eq]
      have h3L : L < 3 := by omega
      calc (2 : Nat) ^ 16 = 2 ^ (8 * (L - 1)) * 2 ^ (8 * (3 - L)) := by
            rw [← pow_add, show 8 * (L - 1) + 8 * (3 - L) = 16 by omega]
        _ ≤ t * 2 ^ (8 * (3 - L)) := Nat.mul_le_mul_right _ hbound1
  set coef := (if 3 ≤ L then t >>> (8 * (L - 3)) else t <<< (8 * (3 - L)))
    with hcoefdef
  have hmul16 : L = 1 → coef = t * 2 ^ 16 := by
    intro h1
    rw [hcoefdef, if_neg (by omega), Nat.shiftLeft_eq, h1]
  have hmul8 : L = 2 → coef = t * 2 ^ 8 := by
    intro h2
    rw [hcoefdef, if_neg (by omega), Nat.shiftLeft_eq, h2]
  have hunfold : target_to_compact_bits t =
      (if coef &&& 0x800000 ≠ 0 then
        ((L + 1) <<< 24) ||| ((coef >>> 8) &&& 0x7FFFFF)
      else (L <<< 24) ||| (coef &&& 0x7FFFFF)) := by
    rw [target_to_compact_bits_eq hL1 hbound1 hbound2, hcoefdef]
  rw [hunfold]
  by_cases hsign : coef &&& 0x800000 ≠ 0
  · -- high coefficient: extra pad byte, exponent L + 1
    rw [if_pos hsign]
    have hc23 : 2 ^ 23 ≤ coef := by
      by_contra hcon
      push_neg at hcon
      exact hsign (and_signbit_eq_zero_of_lt hcon)
    have hsh : (coef >>> 8) &&& 0x7FFFFF = coef / 2 ^ 8 := by
      rw [Nat.shiftRight_eq_div_pow, and_mask23_of_lt (by omega)]
    rw [hsh]
    refine isCanonical_map_aux (by omega) (by omega) (by omega) (by omega)
      (fun h1 => absurd h1 (by omega)) (fun h2 => ?_)
    have hL1' : L = 1 := by omega
    rw [hmul16 hL1']
    rw [show t * 2 ^ 16 = t * 2 ^ 8 * 2 ^ 8 by ring,
      Nat.mul_div_cancel _ (by norm_num)]
    omega
  · -- low coefficient: exponent L itself
    rw [if_neg hsign]
    have hc23 : coef < 2 ^ 23 := by
      by_contra hcon
      push_neg at hcon
      exact hsign (and_signbit_ne_zero hcon hcoef2)
    rw [and_mask23_of_lt hc23]
    refine isCanonical_map_aux hL1 (by omega) (by omega) hc23
      (fun h1 => ⟨by omega, ?_⟩) (fun h2 => ?_)
    · rw [hmul16 h1]
      omega
    · rw [hmul8 h2]
      omega

/-! ### Chain-level data model

All chain-level definitions take the double-SHA-256 oracle
`d : Bytes → Bytes` as an explicit parameter (`Digest`). -/

/-- The `double_sha256` oracle (`src/crypto/hash.py`). -/
abbrev Digest := Bytes → Bytes

/-- The Python exception classes the sources catch; messages are irrelevant
to control flow and omitted. -/
inductive PyErr where
  | validationError
  | valueError
  | typeError
  | keyError
deriving DecidableEq

instance {ε α : Type} [DecidableEq ε] [DecidableEq α] :
    DecidableEq (Except ε α)
  | Except.error e, Except.error f =>
    if h : e = f then isTrue (congrArg Except.error h)
    else isFalse (fun hh => h (Except.error.inj hh))
  | Except.error _, Except.ok _ => isFalse (fun hh => Except.noConfusion hh)
  | Except.ok _, Except.error _ => isFalse (fun hh => Except.noConfusion hh)
  | Except.ok x, Except.ok y =>
    if h : x = y then isTrue (congrArg Except.ok h)
    else isFalse (fun hh => h (Except.ok.inj hh))

/-- `src/consensus/rules.py MAX_BLOCK_SIZE`. -/
def MAX_BLOCK_SIZE : Nat := 1000000

/-- `src/consensus/rules.py COINBASE_MATURITY`. -/
def COINBASE_MATURITY : Nat := 100

/-- `src/consensus/rules.py MAX_MONEY`. -/
def MAX_MONEY : Nat := 21000000 * 100000000

/-- `src/consensus/rules.py MEDIAN_TIME_PAST_BLOCKS`. -/
def MEDIAN_TIME_PAST_BLOCKS : Nat := 11

/-- `src/consensus/rules.py MAX_FUTURE_BLOCK_TIME`. -/
def MAX_FUTURE_BLOCK_TIME : Nat := 2 * 60 * 60

/-- `src/consensus/difficulty.py` constants. -/
def DIFFICULTY_ADJUSTMENT_INTERVAL : Nat := 2016

/-- `TARGET_BLOCK_TIME`. -/
def TARGET_BLOCK_TIME : Nat := 600

/-- `MAX_ADJUSTMENT_FACTOR`. -/
def MAX_ADJUSTMENT_FACTOR : Nat := 4

/-- `GENESIS_DIFFICULTY_BITS`. -/
def GENESIS_DIFFICULTY_BITS : Nat := 0x1d00ffff

/-- `DEV_DIFFICULTY_ADJUSTMENT_INTERVAL`. -/
def DEV_DIFFICULTY_ADJUSTMENT_INTERVAL : Nat := 10

/-- `DEV_TARGET_BLOCK_TIME`. -/
def DEV_TARGET_BLOCK_TIME : Nat := 5

/-- `DEV_GENESIS_DIFFICULTY_BITS`. -/
def DEV_GENESIS_DIFFICULTY_BITS : Nat := 0x1f0fffff

/-- `HALVING_INTERVAL`. -/
def HALVING_INTERVAL : Nat := 210000

/-- `INITIAL_REWARD`. -/
def INITIAL_REWARD : Nat := 5000000000

/-- `Transaction.calculate_txid`: double SHA-256 of the serialized
transaction, displayed in reversed byte order. -/
def txid (d : Digest) (tx : Transaction) : Bytes :=
  (d (serialize_transaction tx)).reverse

/-- `BlockHeader.calculate_hash`. -/
def block_hash (d : Digest) (h : BlockHeader) : Bytes :=
  (d (serialize_block_header h)).reverse

/-- `BlockHeader.get_target` (`src/core/block.py`): expand the compact
difficulty bits, with the sign bit mapping to a clamped-at-zero target. -/
def get_target (bits : Nat) : Nat :=
  let exponent := (bits >>> 24) &&& 0xFF
  let coefficient : Int :=
    if bits &&& 0x800000 ≠ 0 then -((bits &&& 0x7FFFFF : Nat) : Int)
    else ((bits &&& 0x7FFFFF : Nat) : Int)
  let target : Int :=
    if exponent ≤ 3 then Int.fdiv coefficient (2 ^ (8 * (3 - exponent)))
    else coefficient * 2 ^ (8 * (exponent - 3))
  if target < 0 then 0 else target.toNat

/-- `BlockHeader.meets_difficulty_target`: the display-order hash read as a
big-endian integer must be at most the target. -/
def meets_difficulty_target (d : Digest) (h : BlockHeader) : Bool :=
  big_endian_to_int (block_hash d h) ≤ get_target h.difficulty_bits

/-- One pairing pass of `Block.calculate_merkle_root`'s while-loop body
(over an even-length level). -/
def merkle_pass (d : Digest) : List Bytes → List Bytes
  | a :: b :: rest => d (a ++ b) :: merkle_pass d rest
  | _ => []

/-- The while-loop of `Block.calculate_merkle_root`; each pass at least
halves a level of length ≥ 2, so the initial length is enough fuel and the
fuel-exhausted branch is unreachable. -/
def merkle_loop (d : Digest) : Nat → List Bytes → List Bytes
  | 0, level => level
  | fuel + 1, level =>
    if level.length ≤ 1 then level
    else
      let padded :=
        if level.length % 2 ≠ 0 then level ++ [level.getLastD []] else level
      merkle_loop d fuel (merkle_pass d padded)

/-- `Block.calculate_merkle_root`: txids are converted to internal byte
order (reversed) for tree building, and the root converted back to display
order. -/
def calculate_merkle_root (d : Digest) (b : Block) : Bytes :=
  if b.transactions = [] then zeroHash
  else if b.transactions.length = 1 then txid d (b.transactions.headD default)
  else
    let leaves := b.transactions.map (fun tx => (txid d tx).reverse)
    ((merkle_loop d leaves.length leaves).headD zeroHash).reverse

/-- `Block.get_size`. -/
def get_size (b : Block) : Nat :=
  80 + (encode_varint b.transactions.length).length +
    (b.transactions.map (fun tx => (serialize_transaction tx).length)).sum

/-- `src/core/utxo.py UTXOEntry`. -/
structure UTXOEntry where
  value : Int
  pubkey_script : Bytes
  block_height : Int
  is_coinbase : Bool
deriving DecidableEq, Inhabited

/-- The UTXO store: Python keys the dict by the string `"txid:index"`,
which is in bijection with the pair `(txid, index)`. -/
abbrev UTXOSet := List ((Bytes × Nat) × UTXOEntry)

/-- Python `dict` assignment: replace in place when the key exists
(preserving its position, as `dict` does), append otherwise. -/
def assoc_set {α β : Type} [DecidableEq α] (l : List (α × β)) (k : α) (v : β) :
    List (α × β) :=
  if l.any (fun kv => kv.1 = k) then
    l.map (fun kv => if kv.1 = k then (k, v) else kv)
  else l ++ [(k, v)]

/-- `UTXOSet.add_utxo`. -/
def add_utxo (s : UTXOSet) (t : Bytes) (index : Nat) (output : TransactionOutput)
    (height : Int) (is_cb : Bool) : UTXOSet :=
  assoc_set s (t, index) ⟨output.value, output.pubkey_script, height, is_cb⟩

/-- `UTXOSet.get_utxo`. -/
def get_utxo (s : UTXOSet) (t : Bytes) (index : Nat) : Option UTXOEntry :=
  (s.find? (fun kv => kv.1 = (t, index))).map (·.2)

/-- `UTXOSet.remove_utxo`; `none` models the `KeyError` on a missing key. -/
def remove_utxo (s : UTXOSet) (t : Bytes) (index : Nat) :
    Option (UTXOEntry × UTXOSet) :=
  match get_utxo s t index with
  | none => none
  | some e => some (e, s.filter (fun kv => ¬ kv.1 = (t, index)))

/-- `src/core/mempool.py Mempool`: the txid-keyed transaction dict and the
fee-rate index (`_fee_index`), descending. -/
structure Mempool where
  transactions : List (Bytes × Transaction)
  fee_index : List (Rat × Bytes)
deriving DecidableEq

/-- The empty mempool (`Mempool.__init__`). -/
def Mempool.empty : Mempool := ⟨[], []⟩

/-- `Mempool.is_double_spend`: some non-coinbase input of `tx` spends an
outpoint already consumed by a mempool transaction's non-coinbase input. -/
def is_double_spend (m : Mempool) (tx : Transaction) : Bool :=
  let spent : List (Bytes × Nat) :=
    (m.transactions.map Prod.snd).flatMap (fun etx =>
      (etx.inputs.filter (fun i => ¬ i.is_coinbase)).map
        (fun i => (i.previous_txid, i.previous_output_index)))
  tx.inputs.any (fun i =>
    ¬ i.is_coinbase &&
      spent.any (fun p => p = (i.previous_txid, i.previous_output_index)))

/-- The input-resolution loop of `Mempool._calculate_fee_rate`; `none`
stands for the early `return 0.0` paths (coinbase input, missing UTXO). -/
def total_input_value (s : UTXOSet) : List TransactionInput → Option Int
  | [] => some 0
  | i :: rest =>
    if i.is_coinbase then none
    else match get_utxo s i.previous_txid i.previous_output_index with
      | none => none
      | some u => (total_input_value s rest).map (fun v => u.value + v)

/-- `Mempool._calculate_fee_rate` (Python float modelled by `ℚ`). -/
def calculate_fee_rate (tx : Transaction) (utxo : Option UTXOSet) : Rat :=
  match utxo with
  | none => 0
  | some s =>
    match total_input_value s tx.inputs with
    | none => 0
    | some tin =>
      let tout := (tx.outputs.map (·.value)).sum
      let fee := tin - tout
      if fee < 0 then 0
      else
        let size := (serialize_transaction tx).length
        if size = 0 then 0 else (fee : Rat) / (size : Rat)

/-- Stable insertion of one fee entry into a descending list (equal keys
keep their original relative order, as Python's stable sort does). -/
def fee_insert_desc (x : Rat × Bytes) : List (Rat × Bytes) → List (Rat × Bytes)
  | [] => [x]
  | y :: ys => if x.1 ≤ y.1 then y :: fee_insert_desc x ys else x :: y :: ys

/-- Stable descending sort by fee rate (`self._fee_index.sort(reverse=True)`
with Python's stable sort). -/
def fee_sort_desc : List (Rat × Bytes) → List (Rat × Bytes)
  | [] => []
  | x :: xs => fee_insert_desc x (fee_sort_desc xs)

/-- `Mempool.add_transaction`. -/
def mempool_add_transaction (d : Digest) (m : Mempool) (tx : Transaction)
    (utxo : Option UTXOSet) : Mempool × Bool :=
  let t := txid d tx
  if m.transactions.any (fun kv => kv.1 = t) then (m, false)
  else if tx.is_coinbase then (m, false)
  else if is_double_spend m tx then (m, false)
  else
    let fee_rate := calculate_fee_rate tx utxo
    ({ transactions := m.transactions ++ [(t, tx)],
       fee_index := fee_sort_desc (m.fee_index ++ [(fee_rate, t)]) }, true)

/-- `Mempool.remove_transaction`. -/
def mempool_remove_transaction (m : Mempool) (t : Bytes) :
    Mempool × Option Transaction :=
  match m.transactions.find? (fun kv => kv.1 = t) with
  | none => (m, none)
  | some kv =>
    ({ transactions := m.transactions.filter (fun kv' => ¬ kv'.1 = t),
       fee_index := m.fee_index.filter (fun e => ¬ e.2 = t) }, some kv.2)

/-- `Mempool.clear_confirmed`. -/
def clear_confirmed (d : Digest) (m : Mempool) (b : Block) : Mempool × Nat :=
  b.transactions.foldl
    (fun (st : Mempool × Nat) tx =>
      if tx.is_coinbase then st
      else
        match mempool_remove_transaction st.1 (txid d tx) with
        | (m', some _) => (m', st.2 + 1)
        | (m', none) => (m', st.2))
    (m, 0)

/-- A stored block: the `Block` object together with the `_height` that
`Blockchain.add_block` assigns before storing it. -/
structure StoredBlock where
  block : Block
  height : Option Int
deriving DecidableEq

/-- `src/core/blockchain.py Blockchain`: the complete mutable state.  The
underscore-prefixed Python attributes keep their names without the
underscore. -/
structure Blockchain where
  blocks : List (Bytes × StoredBlock)
  block_height_index : List (Int × List Bytes)
  chain_tips : List Bytes
  best_chain_tip : Option Bytes
  utxo_set : UTXOSet
  mempool : Mempool
  development_mode : Bool
  difficulty_bits : Nat
  adjustment_interval : Nat
  target_block_time : Nat
  target_timespan : Nat
deriving DecidableEq

/-- `Blockchain.get_block`. -/
def get_block (c : Blockchain) (h : Bytes) : Option StoredBlock :=
  (c.blocks.find? (fun kv => kv.1 = h)).map (·.2)

/-- The while-loop of `Blockchain.get_chain`: walk `previous_block_hash`
links guarding against revisits; the visited set bounds the walk by the
store size, so `c.blocks.length + 1` fuel is enough and the fuel-exhausted
branch is unreachable. -/
def get_chain_walk (c : Blockchain) : Nat → Bytes → List Bytes → List StoredBlock
  | 0, _, _ => []
  | fuel + 1, current, visited =>
    if current = zeroHash then []
    else if current ∈ visited then []
    else match get_block c current with
      | none => []
      | some sb =>
        sb :: get_chain_walk c fuel sb.block.header.previous_block_hash
          (current :: visited)

/-- `Blockchain.get_chain` (tip defaulting to `best_chain_tip`); result is
genesis-first. -/
def get_chain (c : Blockchain) (tip : Option Bytes) : List StoredBlock :=
  match (match tip with | some t => some t | none => c.best_chain_tip) with
  | none => []
  | some t => (get_chain_walk c (c.blocks.length + 1) t []).reverse

/-- `Blockchain.get_chain_tip`. -/
def get_chain_tip (c : Blockchain) : Option StoredBlock :=
  match c.best_chain_tip with
  | none => none
  | some t => get_block c t

/-- `Blockchain.get_chain_height` (−1 for an empty chain). -/
def get_chain_height (c : Blockchain) : Int :=
  match get_chain_tip c with
  | none => -1
  | some sb =>
    match sb.height with
    | some h => h
    | none => (get_chain c none).length - 1

/-- `Blockchain._detect_fork`: the new block's parent already has another
child in the store. -/
def detect_fork (d : Digest) (c : Blockchain) (block : Block) : Bool :=
  let prev := block.header.previous_block_hash
  if prev = zeroHash then false
  else
    let bh := block_hash d block.header
    c.blocks.any (fun kv =>
      ¬ kv.1 = bh && kv.2.block.header.previous_block_hash = prev)

/-- `Blockchain._find_transaction`: first match in store order. -/
def find_transaction (d : Digest) (c : Blockchain) (t : Bytes) :
    Option Transaction :=
  ((c.blocks.map (fun kv => kv.2.block.transactions)).flatten).find?
    (fun tx => txid d tx = t)

/-- `Blockchain.get_previous_timestamps`: up to `count` timestamps walking
back from (and including) `h`, most recent first. -/
def get_previous_timestamps_walk (c : Blockchain) :
    Nat → Bytes → Nat → List Nat
  | 0, _, _ => []
  | fuel + 1, current, remaining =>
    if current = zeroHash ∨ remaining = 0 then []
    else match get_block c current with
      | none => []
      | some sb =>
        sb.block.header.timestamp ::
          get_previous_timestamps_walk c fuel
            sb.block.header.previous_block_hash (remaining - 1)

/-- `Blockchain.get_previous_timestamps`. -/
def get_previous_timestamps (c : Blockchain) (h : Bytes) (count : Nat) :
    List Nat :=
  get_previous_timestamps_walk c (c.blocks.length + 1) h count

/-- The input-spending part of `Blockchain._apply_block`'s per-transaction
body (`remove_utxo` failures are swallowed by `except: pass`). -/
def apply_tx_inputs (s : UTXOSet) (tx : Transaction) : UTXOSet :=
  tx.inputs.foldl
    (fun s' i =>
      if i.is_coinbase then s'
      else
        match remove_utxo s' i.previous_txid i.previous_output_index with
        | none => s'
        | some (_, s'') => s'')
    s

/-- The output-creating part of `Blockchain._apply_block`'s per-transaction
body (`enumerate(tx.outputs)`). -/
def add_tx_outputs (s : UTXOSet) (t : Bytes) :
    List TransactionOutput → Nat → Int → Bool → UTXOSet
  | [], _, _, _ => s
  | o :: rest, idx, height, is_cb =>
    add_tx_outputs (add_utxo s t idx o height is_cb) t rest (idx + 1) height is_cb

/-- `Blockchain._apply_block`. -/
def apply_block (d : Digest) (c : Blockchain) (sb : StoredBlock) : Blockchain :=
  let height := sb.height.getD 0
  let u :=
    sb.block.transactions.foldl
      (fun s tx =>
        let s1 := if tx.is_coinbase then s else apply_tx_inputs s tx
        add_tx_outputs s1 (txid d tx) tx.outputs 0 height tx.is_coinbase)
      c.utxo_set
  { c with utxo_set := u }

/-- The block-scan of `Blockchain._unwind_block` reconstructing the height
of the block containing `t`: the inner `break` only leaves the transaction
loop, so the *last* matching block in store order wins. -/
def prev_height_scan (d : Digest) (c : Blockchain) (t : Bytes) : Int :=
  c.blocks.foldl
    (fun acc kv =>
      if kv.2.block.transactions.any (fun tx => txid d tx = t) then
        kv.2.height.getD 0
      else acc)
    0

/-- Removal of a transaction's outputs during `Blockchain._unwind_block`
(failures swallowed). -/
def remove_tx_outputs (s : UTXOSet) (t : Bytes) (n : Nat) : UTXOSet :=
  (List.range n).foldl
    (fun s' idx =>
      match remove_utxo s' t idx with
      | none => s'
      | some (_, s'') => s'')
    s

/-- `Blockchain._unwind_block`. -/
def unwind_block (d : Digest) (c : Blockchain) (sb : StoredBlock) : Blockchain :=
  let u :=
    (sb.block.transactions.reverse).foldl
      (fun s tx =>
        let s1 := remove_tx_outputs s (txid d tx) tx.outputs.length
        if tx.is_coinbase then s1
        else
          tx.inputs.foldl
            (fun s2 i =>
              if i.is_coinbase then s2
              else
                match find_transaction d c i.previous_txid with
                | none => s2
                | some prev_tx =>
                  if i.previous_output_index < prev_tx.outputs.length then
                    add_utxo s2 i.previous_txid i.previous_output_index
                      (prev_tx.outputs.getD i.previous_output_index default)
                      (prev_height_scan d c i.previous_txid)
                      prev_tx.is_coinbase
                  else s2)
            s1)
      c.utxo_set
  { c with utxo_set := u }

/-- First walk of `Blockchain._find_common_ancestor`: collect the hashes on
the chain from `current` (fuelled; see `get_chain_walk`). -/
def collect_chain_hashes (c : Blockchain) : Nat → Bytes → List Bytes
  | 0, _ => []
  | fuel + 1, current =>
    if current = zeroHash then []
    else
      current ::
        (match get_block c current with
         | none => []
         | some sb => collect_chain_hashes c fuel sb.block.header.previous_block_hash)

/-- Second walk of `Blockchain._find_common_ancestor`. -/
def ancestor_walk (c : Blockchain) (chainA : List Bytes) :
    Nat → Bytes → Option Bytes
  | 0, _ => none
  | fuel + 1, current =>
    if current = zeroHash then none
    else if current ∈ chainA then some current
    else match get_block c current with
      | none => none
      | some sb => ancestor_walk c chainA fuel sb.block.header.previous_block_hash

/-- `Blockchain._find_common_ancestor`. -/
def find_common_ancestor (c : Blockchain) (a b : Bytes) : Option Bytes :=
  ancestor_walk c (collect_chain_hashes c (c.blocks.length + 1) a)
    (c.blocks.length + 1) b

/-- The collection loops of `Blockchain._reorganize_chain` (steps 2 and 3):
walk from `current` to the common ancestor, failing on a missing block. -/
def collect_until (c : Blockchain) : Nat → Bytes → Bytes →
    Option (List StoredBlock)
  | 0, _, _ => none
  | fuel + 1, current, stop =>
    if current = stop then some []
    else match get_block c current with
      | none => none
      | some sb =>
        (collect_until c fuel sb.block.header.previous_block_hash stop).map
          (fun rest => sb :: rest)

/-- `Blockchain._reorganize_chain`. -/
def reorganize_chain (d : Digest) (c : Blockchain) (new_tip : Bytes) :
    Blockchain × Bool :=
  match c.best_chain_tip with
  | none => ({ c with best_chain_tip := some new_tip }, true)
  | some old_tip =>
    match find_common_ancestor c old_tip new_tip with
    | none => (c, false)
    | some anc =>
      match collect_until c (c.blocks.length + 1) old_tip anc with
      | none => (c, false)
      | some blocks_to_unwind =>
        match collect_until c (c.blocks.length + 1) new_tip anc with
        | none => (c, false)
        | some blocks_to_apply_rev =>
          let blocks_to_apply := blocks_to_apply_rev.reverse
          -- Step 4: unwind old blocks (newest first), re-adding txs to the
          -- mempool against the evolving UTXO set
          let c1 := blocks_to_unwind.foldl
            (fun c' sb =>
              let c'' := unwind_block d c' sb
              let m' :=
                sb.block.transactions.foldl
                  (fun m tx =>
                    if tx.is_coinbase then m
                    else (mempool_add_transaction d m tx (some c''.utxo_set)).1)
                  c''.mempool
              { c'' with mempool := m' })
            c
          -- Step 5: apply new blocks (oldest first)
          let c2 := blocks_to_apply.foldl
            (fun c' sb =>
              let c'' := apply_block d c' sb
              { c'' with mempool := (clear_confirmed d c''.mempool sb.block).1 })
            c1
          ({ c2 with best_chain_tip := some new_tip }, true)

/-! ### Difficulty engine (`src/consensus/difficulty.py`) -/

/-- `should_adjust`. -/
def should_adjust (height : Int) (interval : Nat) : Bool :=
  if height ≤ 0 then false else height % (interval : Int) = 0

/-- `get_block_reward`; `none` models the `ValueError` for negative
heights. -/
def get_block_reward (height : Int) : Option Nat :=
  if height < 0 then none
  else
    let halvings := height.toNat / HALVING_INTERVAL
    if 64 ≤ halvings then some 0
    else some (INITIAL_REWARD >>> halvings)

/-- `calculate_next_difficulty`.  The maximum-target cap defaults to
`GENESIS_DIFFICULTY_BITS` (mainnet), as in the source; the only caller,
`Blockchain._get_next_difficulty`, never passes `max_target_bits`, so the
mainnet cap also applies in development mode.  `none` models the
`ValueError`s (fewer than two timestamps, zero difficulty bits). -/
def calculate_next_difficulty (block_timestamps : List Nat)
    (current_bits : Nat) (_adjustment_interval : Nat)
    (target_timespan : Nat) : Option Nat :=
  if block_timestamps.length < 2 then none
  else
    let time_taken : Int :=
      (block_timestamps.getLastD 0 : Int) - (block_timestamps.headD 0 : Int)
    let min_timespan : Int := ((target_timespan / MAX_ADJUSTMENT_FACTOR : Nat) : Int)
    let max_timespan : Int := ((target_timespan * MAX_ADJUSTMENT_FACTOR : Nat) : Int)
    let time_taken :=
      if time_taken < min_timespan then min_timespan
      else if max_timespan < time_taken then max_timespan
      else time_taken
    match compact_bits_to_target current_bits with
    | none => none
    | some old_target =>
      let new_target : Int :=
        Int.fdiv ((old_target : Int) * time_taken) ((target_timespan : Nat) : Int)
      match compact_bits_to_target GENESIS_DIFFICULTY_BITS with
      | none => none
      | some max_target =>
        let new_target :=
          if (max_target : Int) < new_target then (max_target : Int) else new_target
        let new_target := if new_target < 1 then 1 else new_target
        some (target_to_compact_bits new_target.toNat)

/-- `Blockchain._get_next_difficulty`: returns the expected bits and the
possibly *mutated* chain (`self._difficulty_bits = new_bits` at adjustment
boundaries); `none` models a propagating exception (no mutation happens in
that case, since the store happens after the computation). -/
def get_next_difficulty (c : Blockchain) (height : Int) :
    Option (Nat × Blockchain) :=
  if height = 0 then some (c.difficulty_bits, c)
  else if ¬ should_adjust height c.adjustment_interval then
    some (c.difficulty_bits, c)
  else
    let chain := get_chain c none
    if chain.length < 2 then some (c.difficulty_bits, c)
    else
      let interval_start := chain.length - c.adjustment_interval
      let block_timestamps :=
        (chain.drop interval_start).map (fun sb => sb.block.header.timestamp)
      if block_timestamps.length < 2 then some (c.difficulty_bits, c)
      else
        match calculate_next_difficulty block_timestamps c.difficulty_bits
            c.adjustment_interval c.target_timespan with
        | none => none
        | some new_bits => some (new_bits, { c with difficulty_bits := new_bits })

/-! ### Consensus rules (`src/consensus/rules.py`) -/

/-- Ascending insertion (stable), for `sorted(timestamps)`. -/
def ts_insert_asc (x : Nat) : List Nat → List Nat
  | [] => [x]
  | y :: ys => if y ≤ x then y :: ts_insert_asc x ys else x :: y :: ys

/-- `sorted` on timestamps. -/
def ts_sort_asc : List Nat → List Nat
  | [] => []
  | x :: xs => ts_insert_asc x (ts_sort_asc xs)

/-- `calculate_median_time`; `none` models the `ValueError` on an empty
list.  Lower median for even counts. -/
def calculate_median_time (timestamps : List Nat) : Option Nat :=
  if timestamps = [] then none
  else
    let sorted := ts_sort_asc timestamps
    let n := sorted.length
    let mid := n / 2
    if n % 2 = 1 then some (sorted.getD mid 0)
    else some (sorted.getD (mid - 1) 0)

/-- `validate_timestamp` (both rules; violations raise `ValueError`). -/
def validate_timestamp (block_timestamp : Nat) (previous_timestamps : List Nat)
    (current_time : Nat) : Except PyErr Bool :=
  (do
    if MEDIAN_TIME_PAST_BLOCKS ≤ previous_timestamps.length then
      let recent :=
        previous_timestamps.drop
          (previous_timestamps.length - MEDIAN_TIME_PAST_BLOCKS)
      match calculate_median_time recent with
      | none => throw PyErr.valueError
      | some median_time =>
        if block_timestamp ≤ median_time then throw PyErr.valueError
    if current_time + MAX_FUTURE_BLOCK_TIME < block_timestamp then
      throw PyErr.valueError
    pure true : Except PyErr Bool)

/-- `validate_block_size` (violation raises `ValueError`). -/
def validate_block_size (b : Block) : Except PyErr Bool :=
  if MAX_BLOCK_SIZE < get_size b then Except.error PyErr.valueError
  else Except.ok true

/-- `validate_coinbase`.  Note: the source's fee loop computes a local
per-transaction output total but never accumulates anything, so
`total_fees` is always `0` and the bound actually enforced is
`coinbase outputs ≤ block reward`. -/
def validate_coinbase (b : Block) (expected_height : Int) : Except PyErr Bool :=
  match b.transactions with
  | [] => Except.error PyErr.valueError
  | coinbase_tx :: rest =>
    if ¬ coinbase_tx.is_coinbase then Except.error PyErr.valueError
    else if rest.any (fun tx => tx.is_coinbase) then Except.error PyErr.valueError
    else
      let coinbase_output_total := (coinbase_tx.outputs.map (·.value)).sum
      match get_block_reward expected_height with
      | none => Except.error PyErr.valueError
      | some expected_reward =>
        let total_fees : Int := 0
        if (expected_reward : Int) + total_fees < coinbase_output_total then
          Except.error PyErr.valueError
        else Except.ok true

/-- `validate_coinbase_maturity` (`src/consensus/rules.py`): its parameters
are `(txid, output_index, utxo_entry, current_height)` — it accepts *no*
`maturity` keyword (see `validate_transaction` below).  An immature
coinbase spend raises `ValueError`. -/
def validate_coinbase_maturity (_t : Bytes) (_output_index : Nat)
    (utxo_entry : UTXOEntry) (current_height : Int) : Except PyErr Bool :=
  if ¬ utxo_entry.is_coinbase then Except.ok true
  else
    let confirmations := current_height - utxo_entry.block_height
    if confirmations < (COINBASE_MATURITY : Int) then Except.error PyErr.valueError
    else Except.ok true

/-- `validate_no_duplicate_txids` (duplicates raise `ValueError`). -/
def validate_no_duplicate_txids (d : Digest) (transactions : List Transaction) :
    Except PyErr Bool :=
  let dups :=
    (transactions.foldl
      (fun (st : List Bytes × List Bytes) tx =>
        let t := txid d tx
        if t ∈ st.1 then (st.1 ++ [t], st.2 ++ [t])
        else (st.1 ++ [t], st.2))
      ([], [])).2
  if dups = [] then Except.ok true else Except.error PyErr.valueError

/-! ### Block and transaction validation (`src/consensus/validation.py`) -/

/-- The per-input loop of `validate_transaction` (steps 3–4).  After the
UTXO lookup succeeds, the source calls
`validate_coinbase_maturity(..., maturity=coinbase_maturity)`, but the
function in `src/consensus/rules.py` takes no `maturity` parameter, so the
call itself raises `TypeError` on the first resolvable input.  The
remainder of `validate_transaction` — the maturity comparison, signature
checks and conservation-of-value check — is therefore unreachable for
every input list. -/
def check_tx_inputs (s : UTXOSet) : List TransactionInput → Except PyErr Unit
  | [] => Except.ok ()
  | i :: _rest =>
    if i.is_coinbase then Except.error PyErr.validationError
    else
      match get_utxo s i.previous_txid i.previous_output_index with
      | none => Except.error PyErr.validationError
      | some _utxo => Except.error PyErr.typeError

/-- `validate_transaction` (steps 1–4; steps 5–6 are dead code, see
`check_tx_inputs`). -/
def validate_transaction (tx : Transaction) (utxo_set : UTXOSet)
    (_current_height : Int) (_coinbase_maturity : Nat) : Except PyErr Bool :=
  if tx.is_coinbase then Except.error PyErr.validationError
  else if tx.inputs.length = 0 then Except.error PyErr.validationError
  else if tx.outputs.length = 0 then Except.error PyErr.validationError
  else
    match check_tx_inputs utxo_set tx.inputs with
    | Except.error e => Except.error e
    | Except.ok _ => Except.ok true

/-- The ASCII whitespace bytes Python's argumentless `bytes.split` (and
`str.split`) splits on. -/
def is_py_space (b : Nat) : Bool :=
  b = 32 ∨ b = 9 ∨ b = 10 ∨ b = 13 ∨ b = 11 ∨ b = 12

/-- Token accumulator for `bytes_split` (current token carried reversed). -/
def bytes_split_go : Bytes → Bytes → List Bytes
  | [], acc => if acc = [] then [] else [acc.reverse]
  | b :: rest, acc =>
    if is_py_space b then
      if acc = [] then bytes_split_go rest []
      else acc.reverse :: bytes_split_go rest []
    else bytes_split_go rest (b :: acc)

/-- Python's argumentless `split`: split on runs of whitespace, dropping
empty tokens. -/
def bytes_split (bs : Bytes) : List Bytes := bytes_split_go bs []

/-- `validate_transaction_signature` (`src/consensus/validation.py`).  The
whole body runs under a blanket `except Exception: return True`.  The model
keeps the source's control flow up to the parse of `signature_script`; the
cryptographic continuation — hex-decoding the two parts, reconstructing the
public key and calling `verify_transaction_input` on the serialized
transaction — is the oracle `verify`, with `none` standing for an
exception raised inside it (caught: the function returns `True`).  An
out-of-range `input_index` raises `IndexError`, also caught. -/
def validate_transaction_signature
    (verify : Bytes → Bytes → Bytes → Option Bool) (tx : Transaction)
    (input_index : Nat) (utxo_set : UTXOSet) : Bool :=
  match tx.inputs[input_index]? with
  | none => true
  | some inp =>
    match get_utxo utxo_set inp.previous_txid inp.previous_output_index with
    | none => false
    | some _ =>
      if inp.signature_script = [] then true
      else
        let parts := bytes_split inp.signature_script
        if parts.length < 2 then true
        else
          match verify (parts.getD 0 []) (parts.getD 1 [])
              (serialize_transaction tx) with
          | none => true
          | some r => r

/-- The update of the working UTXO set after a transaction passes, in
`validate_block_transactions` (spent outputs removed, new outputs added
with `is_coinbase=False`; failures swallowed). -/
def vbt_update_working (d : Digest) (working : UTXOSet) (tx : Transaction)
    (block_height : Int) : UTXOSet :=
  let w1 := apply_tx_inputs working tx
  add_tx_outputs w1 (txid d tx) tx.outputs 0 block_height false

/-- The indexed loop of `validate_block_transactions`; only
`ValidationError` is caught and re-raised (with a wrapped message), other
exceptions (in particular the `TypeError` from `check_tx_inputs`)
propagate and abort the loop. -/
def vbt_loop (d : Digest) (block_height : Int) (coinbase_maturity : Nat) :
    UTXOSet → Nat → List Transaction → Except PyErr Bool
  | _, _, [] => Except.ok true
  | working, i, tx :: rest =>
    if i = 0 ∧ tx.is_coinbase then
      vbt_loop d block_height coinbase_maturity working (i + 1) rest
    else
      match validate_transaction tx working block_height coinbase_maturity with
      | Except.error PyErr.validationError => Except.error PyErr.validationError
      | Except.error e => Except.error e
      | Except.ok _ =>
        vbt_loop d block_height coinbase_maturity
          (vbt_update_working d working tx block_height) (i + 1) rest

/-- `validate_block_transactions` (the working set is a copy of the UTXO
set; copying is implicit in the value semantics of the model). -/
def validate_block_transactions (d : Digest) (b : Block) (utxo_set : UTXOSet)
    (block_height : Int) (coinbase_maturity : Nat) : Except PyErr Bool :=
  vbt_loop d block_height coinbase_maturity utxo_set 0 b.transactions

/-- The `expected_height` computation of `validate_block` (step 2), also
performed by `add_block` when assigning the stored height. -/
def expected_height_of (c : Blockchain) (block : Block) : Int :=
  if block.header.previous_block_hash = zeroHash then 0
  else
    match get_block c block.header.previous_block_hash with
    | some parent =>
      match parent.height with
      | some h => h + 1
      | none => get_chain_height c + 1
    | none => get_chain_height c + 1

/-- `validate_block` (`src/consensus/validation.py`), checks 1–9 in source
order.  The function threads the `Blockchain` because check 9 calls
`Blockchain._get_next_difficulty`, which stores a recalculated
`_difficulty_bits` at adjustment boundaries *before* the comparison —
also when the comparison then fails.  Checks 4, 5, 6 and 8 raise
`ValueError`s that propagate out of `validate_block` (its caller
`add_block` catches every exception); in check 7 only `ValidationError`
and `ValueError` are re-raised while other exceptions are logged and
swallowed; in check 9 only `ValidationError` is re-raised. -/
def validate_block (d : Digest) (now : Nat) (block : Block) (c : Blockchain) :
    Blockchain × Except PyErr Bool :=
  -- 1. proof of work
  if ¬ meets_difficulty_target d block.header then
    (c, Except.error PyErr.validationError)
  else
    let prev_hash := block.header.previous_block_hash
    let is_genesis := prev_hash = zeroHash
    -- 2. previous block must exist
    if ¬ is_genesis ∧ (get_block c prev_hash).isNone then
      (c, Except.error PyErr.validationError)
    else
      let expected_height := expected_height_of c block
      -- 3. merkle root
      if ¬ calculate_merkle_root d block = block.header.merkle_root then
        (c, Except.error PyErr.validationError)
      else
        -- 4. timestamp
        match (if is_genesis then Except.ok true
               else validate_timestamp block.header.timestamp
                 (get_previous_timestamps c prev_hash 11) now) with
        | Except.error e => (c, Except.error e)
        | Except.ok _ =>
          -- 5. block size
          match validate_block_size block with
          | Except.error e => (c, Except.error e)
          | Except.ok _ =>
            -- 6. coinbase
            match validate_coinbase block expected_height with
            | Except.error e => (c, Except.error e)
            | Except.ok _ =>
              -- 7. transactions (coinbase_maturity: the source reads the
              -- attribute `_coinbase_maturity` with default 100; the
              -- attribute is never defined, so the default applies)
              let step7 : Except PyErr Unit :=
                if is_genesis then Except.ok ()
                else
                  match validate_block_transactions d block c.utxo_set
                      expected_height 100 with
                  | Except.ok _ => Except.ok ()
                  | Except.error PyErr.validationError =>
                    Except.error PyErr.validationError
                  | Except.error PyErr.valueError =>
                    Except.error PyErr.validationError
                  | Except.error _ => Except.ok ()   -- logged and swallowed
              match step7 with
              | Except.error e => (c, Except.error e)
              | Except.ok _ =>
                -- 8. no duplicate txids
                match validate_no_duplicate_txids d block.transactions with
                | Except.error e => (c, Except.error e)
                | Except.ok _ =>
                  -- 9. difficulty bits
                  if is_genesis then (c, Except.ok true)
                  else
                    match get_next_difficulty c expected_height with
                    | none => (c, Except.ok true)   -- exception swallowed
                    | some (expected_bits, c') =>
                      if ¬ block.header.difficulty_bits = expected_bits then
                        (c', Except.error PyErr.validationError)
                      else (c', Except.ok true)

/-! ### `Blockchain.add_block` and initialization -/

/-- The storage and bookkeeping section of `add_block`: store the block,
update the height index (append under the height key), and update the
chain tips (remove the parent if present, append the new hash). -/
def store_block (c : Blockchain) (bh : Bytes) (sb : StoredBlock)
    (height : Int) : Blockchain :=
  let blocks' := c.blocks ++ [(bh, sb)]
  let index' :=
    if c.block_height_index.any (fun kv => kv.1 = height) then
      c.block_height_index.map
        (fun kv => if kv.1 = height then (kv.1, kv.2 ++ [bh]) else kv)
    else c.block_height_index ++ [(height, [bh])]
  let prev := sb.block.header.previous_block_hash
  let tips' :=
    (if prev ∈ c.chain_tips then c.chain_tips.erase prev else c.chain_tips) ++ [bh]
  { c with blocks := blocks', block_height_index := index', chain_tips := tips' }

/-- The "extends the best chain" arm of `add_block`: set the tip, apply the
block to the UTXO set, purge confirmed mempool entries. -/
def extend_best_chain (d : Digest) (c : Blockchain) (bh : Bytes)
    (sb : StoredBlock) : Blockchain :=
  let c1 := apply_block d { c with best_chain_tip := some bh } sb
  { c1 with mempool := (clear_confirmed d c1.mempool sb.block).1 }

/-- `Blockchain.add_block`.  Returns the updated state and the accept
flag.  On a duplicate hash nothing changes; on a validation failure only
`validate_block`'s difficulty mutation persists. -/
def add_block (d : Digest) (now : Nat) (c : Blockchain) (block : Block) :
    Blockchain × Bool :=
  let bh := block_hash d block.header
  if (get_block c bh).isSome then (c, false)
  else
    match validate_block d now block c with
    | (c1, Except.error _) => (c1, false)
    | (c1, Except.ok _) =>
      let height := expected_height_of c1 block
      let sb : StoredBlock := ⟨block, some height⟩
      let c2 := store_block c1 bh sb height
      let is_fork := detect_fork d c2 block
      let c3 :=
        if c2.best_chain_tip = none then extend_best_chain d c2 bh sb
        else if some block.header.previous_block_hash = c2.best_chain_tip then
          extend_best_chain d c2 bh sb
        else if is_fork then
          if get_chain_height c2 < height then (reorganize_chain d c2 bh).1
          else c2
        else extend_best_chain d c2 bh sb
      (c3, true)

/-- `Transaction.create_coinbase`: the signature script packs the BIP-34
height (minimal little-endian, `b"\x00"` at height 0) behind a length
byte, followed by an 8-byte little-endian extra nonce. -/
def create_coinbase (block_height : Int) (reward_address : Bytes)
    (reward_amount : Int) (extra_nonce : Nat) : Transaction :=
  let height_bytes : Bytes :=
    if block_height = 0 then [0]
    else
      let n := block_height.toNat
      int_to_little_endian n ((bit_length n + 7) / 8)
  let coinbase_script :=
    [height_bytes.length] ++ height_bytes ++ int_to_little_endian extra_nonce 8
  { version := 1,
    inputs := [⟨zeroHash, 0xffffffff, coinbase_script, 0xffffffff⟩],
    outputs := [⟨reward_amount, reward_address⟩],
    locktime := 0 }

/-- `Blockchain._create_genesis_block`'s block value: coinbase paying
`get_block_reward(0)` to the all-zero address, merkle root from
`compute_merkle_root([txid])` (the single-hash case returns the txid
itself), hardcoded timestamp, nonce 0. -/
def create_genesis_block (d : Digest) (difficulty_bits : Nat) : Block :=
  let reward := (get_block_reward 0).getD 0
  let coinbase_tx :=
    create_coinbase 0 (List.replicate 20 0) (reward : Int) 0
  { header :=
      { version := 1,
        previous_block_hash := zeroHash,
        merkle_root := txid d coinbase_tx,
        timestamp := 1231006505,
        difficulty_bits := difficulty_bits,
        nonce := 0 },
    transactions := [coinbase_tx] }

/-- `Blockchain.__init__` followed by `_create_genesis_block`: the genesis
block is stored, indexed, made the only tip and the best tip, and applied
to the UTXO set — without any call into the consensus validator. -/
def init_blockchain (d : Digest) (development_mode : Bool) : Blockchain :=
  let bits :=
    if development_mode then DEV_GENESIS_DIFFICULTY_BITS
    else GENESIS_DIFFICULTY_BITS
  let interval :=
    if development_mode then DEV_DIFFICULTY_ADJUSTMENT_INTERVAL
    else DIFFICULTY_ADJUSTMENT_INTERVAL
  let block_time :=
    if development_mode then DEV_TARGET_BLOCK_TIME else TARGET_BLOCK_TIME
  let g := create_genesis_block d bits
  let gh := block_hash d g.header
  let sb : StoredBlock := ⟨g, some 0⟩
  let c1 : Blockchain :=
    { blocks := [(gh, sb)],
      block_height_index := [(0, [gh])],
      chain_tips := [gh],
      best_chain_tip := some gh,
      utxo_set := [],
      mempool := Mempool.empty,
      development_mode := development_mode,
      difficulty_bits := bits,
      adjustment_interval := interval,
      target_block_time := block_time,
      target_timespan := interval * block_time }
  apply_block d c1 sb


/-- Two chain states that agree on every component except (possibly) the
stored `difficulty_bits`. -/
def SameButBits (a b : Blockchain) : Prop :=
  a.blocks = b.blocks ∧
  a.block_height_index = b.block_height_index ∧
  a.chain_tips = b.chain_tips ∧
  a.best_chain_tip = b.best_chain_tip ∧
  a.utxo_set = b.utxo_set ∧
  a.mempool = b.mempool ∧
  a.development_mode = b.development_mode ∧
  a.adjustment_interval = b.adjustment_interval ∧
  a.target_block_time = b.target_block_time ∧
  a.target_timespan = b.target_timespan

/-! ### Frame and control-flow lemmas for `add_block` -/

theorem sameButBits_refl (a : Blockchain) : SameButBits a a :=
  ⟨rfl, rfl, rfl, rfl, rfl, rfl, rfl, rfl, rfl, rfl⟩

theorem store_block_tip (c : Blockchain) (bh : Bytes) (sb : StoredBlock)
    (h : Int) : (store_block c bh sb h).best_chain_tip = c.best_chain_tip := rfl

theorem reorganize_chain_tip (d : Digest) (c : Blockchain) (nt : Bytes)
    (c3 : Blockchain) (h : reorganize_chain d c nt = (c3, true)) :
    c3.best_chain_tip = some nt := by
  unfold reorganize_chain at h
  repeat' split at h
  all_goals injection h with h1 h2
  all_goals first
    | exact Bool.noConfusion h2
    | (subst h1; rfl)

theorem get_next_difficulty_frame (c : Blockchain) (h : Int) (b : Nat)
    (c2 : Blockchain) (heq : get_next_difficulty c h = some (b, c2)) :
    SameButBits c2 c := by
  simp only [get_next_difficulty] at heq
  repeat' split at heq
  all_goals try exact Option.noConfusion heq
  all_goals injection heq with h1
  all_goals injection h1 with hb hc
  all_goals subst hb
  all_goals subst hc
  all_goals exact ⟨rfl, rfl, rfl, rfl, rfl, rfl, rfl, rfl, rfl, rfl⟩

theorem validate_block_frame (d : Digest) (now : Nat) (b : Block)
    (c : Blockchain) : SameButBits (validate_block d now b c).1 c := by
  unfold validate_block
  dsimp only
  repeat' split
  all_goals
    first
      | exact sameButBits_refl c
      | exact get_next_difficulty_frame _ _ _ _ (by assumption)

theorem validate_block_ok_true (d : Digest) (now : Nat) (b : Block)
    (c c1 : Blockchain) (r : Bool)
    (heq : validate_block d now b c = (c1, Except.ok r)) : r = true := by
  simp only [validate_block] at heq
  repeat' split at heq
  all_goals injection heq with h1 h2
  all_goals
    first
      | exact Except.noConfusion h2
      | (injection h2 with h3; exact h3.symm)

theorem validate_block_ok_coinbase (d : Digest) (now : Nat) (block : Block)
    (c c1 : Blockchain) (r : Bool)
    (heq : validate_block d now block c = (c1, Except.ok r)) :
    ∃ v, validate_coinbase block (expected_height_of c block) = Except.ok v := by
  simp only [validate_block] at heq
  repeat' split at heq
  all_goals
    first
      | (injection heq with h1 h2; exact Except.noConfusion h2)
      | exact ⟨_, by assumption⟩

theorem validate_coinbase_bound (b : Block) (hh : Int) (v : Bool)
    (heq : validate_coinbase b hh = Except.ok v) :
    ∃ reward : Nat, get_block_reward hh = some reward ∧
      ((b.transactions.headD default).outputs.map (·.value)).sum ≤ (reward : Int) := by
  simp only [validate_coinbase] at heq
  repeat' split at heq
  all_goals try exact Except.noConfusion heq
  next hle =>
    rename_i coinbase_tx rest hbt h1 h2 x2 reward hrw
    rw [hbt]
    simp only [List.headD_cons]
    exact ⟨_, hrw, by omega⟩

theorem add_block_accepted_validate (d : Digest) (now : Nat) (c : Blockchain)
    (block : Block) (h : (add_block d now c block).2 = true) :
    ∃ c1 r, validate_block d now block c = (c1, Except.ok r) := by
  simp only [add_block] at h
  repeat' split at h
  all_goals dsimp only at h
  all_goals
    first
      | exact Bool.noConfusion h
      | exact ⟨_, _, by assumption⟩

theorem add_block_rejected_frame (d : Digest) (now : Nat) (c : Blockchain)
    (block : Block) (c2 : Blockchain)
    (heq : add_block d now c block = (c2, false)) : SameButBits c2 c := by
  simp only [add_block] at heq
  repeat' split at heq
  all_goals injection heq with h1 h2
  all_goals try exact Bool.noConfusion h2
  all_goals subst h1
  all_goals
    first
      | exact sameButBits_refl _
      | (next hv =>
          have hf := validate_block_frame d now block c
          rw [hv] at hf
          exact hf)

/-- The outpoints a transaction consumes: `(previous_txid, index)` of its
non-coinbase inputs (the pairs `Mempool.is_double_spend` collects). -/
def consumed_outpoints (tx : Transaction) : List (Bytes × Nat) :=
  (tx.inputs.filter (fun i => ¬ i.is_coinbase)).map
    (fun i => (i.previous_txid, i.previous_output_index))

/-- No two transactions of the mempool share a consumed outpoint. -/
def MempoolDisjoint (m : Mempool) : Prop :=
  List.Pairwise
    (fun a b => ∀ p ∈ consumed_outpoints a.2, p ∉ consumed_outpoints b.2)
    m.transactions

/-- The mempool states reachable through the `Mempool` interface. -/
inductive MempoolReachable : Mempool → Prop where
  | empty : MempoolReachable Mempool.empty
  | add (d : Digest) (m : Mempool) (tx : Transaction) (utxo : Option UTXOSet) :
      MempoolReachable m →
      MempoolReachable (mempool_add_transaction d m tx utxo).1
  | remove (m : Mempool) (t : Bytes) :
      MempoolReachable m → MempoolReachable (mempool_remove_transaction m t).1
  | clear (d : Digest) (m : Mempool) (b : Block) :
      MempoolReachable m → MempoolReachable (clear_confirmed d m b).1

theorem mempool_add_rejects (d : Digest) (m : Mempool) (tx : Transaction)
    (utxo : Option UTXOSet)
    (h : m.transactions.any (fun kv => kv.1 = txid d tx) = true ∨
      tx.is_coinbase = true ∨ is_double_spend m tx = true) :
    mempool_add_transaction d m tx utxo = (m, false) := by
  simp only [mempool_add_transaction]
  split
  · rfl
  split
  · rfl
  split
  · rfl
  rename_i h1 h2 h3
  rcases h with h | h | h
  · exact absurd h h1
  · exact absurd h h2
  · exact absurd h h3

theorem mempool_add_disjoint (d : Digest) (m : Mempool) (tx : Transaction)
    (utxo : Option UTXOSet) (hd : MempoolDisjoint m) :
    MempoolDisjoint (mempool_add_transaction d m tx utxo).1 := by
  simp only [mempool_add_transaction]
  split
  · exact hd
  split
  · exact hd
  split
  · exact hd
  rename_i h1 h2 h3
  dsimp only
  unfold MempoolDisjoint at hd ⊢
  rw [List.pairwise_append]
  refine ⟨hd, List.pairwise_singleton _ _, ?_⟩
  intro a ha b hb
  rw [List.mem_singleton] at hb
  subst hb
  intro p hp hpc
  apply h3
  unfold is_double_spend
  rw [List.any_eq_true]
  unfold consumed_outpoints at hpc
  obtain ⟨i, hiF, hip⟩ := List.mem_map.mp hpc
  obtain ⟨hiIn, hiCb⟩ := List.mem_filter.mp hiF
  refine ⟨i, hiIn, ?_⟩
  rw [Bool.and_eq_true]
  constructor
  · exact hiCb
  · rw [List.any_eq_true]
    refine ⟨p, ?_, by rw [hip]; simp⟩
    rw [List.mem_flatMap]
    exact ⟨a.2, List.mem_map_of_mem _ ha, hp⟩

theorem mempool_remove_disjoint (m : Mempool) (t : Bytes)
    (hd : MempoolDisjoint m) :
    MempoolDisjoint (mempool_remove_transaction m t).1 := by
  unfold mempool_remove_transaction
  split
  · exact hd
  · exact List.Pairwise.sublist (List.filter_sublist _) hd

theorem clear_fold_disjoint (d : Digest) (txs : List Transaction) :
    ∀ st : Mempool × Nat, MempoolDisjoint st.1 →
    MempoolDisjoint
      ((txs.foldl
        (fun (st : Mempool × Nat) tx =>
          if tx.is_coinbase then st
          else
            match mempool_remove_transaction st.1 (txid d tx) with
            | (m', some _) => (m', st.2 + 1)
            | (m', none) => (m', st.2))
        st)).1 := by
  induction txs with
  | nil => intro st h; exact h
  | cons tx rest ih =>
    intro st h
    rw [List.foldl_cons]
    apply ih
    split
    · exact h
    · split
      next m' x hrem =>
        have hr := mempool_remove_disjoint st.1 (txid d tx) h
        rw [hrem] at hr
        exact hr
      next m' hrem =>
        have hr := mempool_remove_disjoint st.1 (txid d tx) h
        rw [hrem] at hr
        exact hr

theorem clear_confirmed_disjoint (d : Digest) (m : Mempool) (b : Block)
    (hd : MempoolDisjoint m) : MempoolDisjoint (clear_confirmed d m b).1 := by
  unfold clear_confirmed
  exact clear_fold_disjoint d b.transactions (m, 0) hd

/-- C7: the mempool rejects a duplicate txid, a coinbase, and any
transaction whose (non-null) inputs spend an outpoint already consumed by
a mempool member, leaving the mempool unchanged; consequently every
reachable mempool is free of conflicting spends. -/
theorem c7_mempool_first_seen :
    (∀ (d : Digest) (m : Mempool) (tx : Transaction) (utxo : Option UTXOSet),
        (m.transactions.any (fun kv => kv.1 = txid d tx) = true ∨
          tx.is_coinbase = true ∨ is_double_spend m tx = true) →
        mempool_add_transaction d m tx utxo = (m, false)) ∧
    ∀ m : Mempool, MempoolReachable m → MempoolDisjoint m := by
  refine ⟨fun d m tx utxo h => mempool_add_rejects d m tx utxo h, ?_⟩
  intro m hm
  induction hm with
  | empty => exact List.Pairwise.nil
  | add d m tx utxo _ ih => exact mempool_add_disjoint d m tx utxo ih
  | remove m t _ ih => exact mempool_remove_disjoint m t ih
  | clear d m b _ ih => exact clear_confirmed_disjoint d m b ih

/-- C4 (amended): an accepted block's coinbase output total is bounded by
the block reward at the block's expected height alone — the fee term the
specification adds is computed as constantly zero by the source. -/
theorem c4_coinbase_reward_bound_amended (d : Digest) (now : Nat)
    (c : Blockchain) (block : Block)
    (h : (add_block d now c block).2 = true) :
    ∃ reward : Nat, get_block_reward (expected_height_of c block) = some reward ∧
      ((block.transactions.headD default).outputs.map (·.value)).sum ≤
        (reward : Int) := by
  obtain ⟨c1, r, hv⟩ := add_block_accepted_validate d now c block h
  obtain ⟨v, hcb⟩ := validate_block_ok_coinbase d now block c c1 r hv
  exact validate_coinbase_bound block _ v hcb

/-- C5 (amended): whenever an input's signature script does not split into
at least two whitespace-separated parts (wallet-produced scripts never do:
they concatenate signature and key with no separator), signature
validation succeeds for every cryptographic verifier — unconditionally,
with no policy switch. -/
theorem c5_unparseable_signature_amended
    (verify : Bytes → Bytes → Bytes → Option Bool) (tx : Transaction)
    (i : Nat) (s : UTXOSet) (inp : TransactionInput)
    (hi : tx.inputs[i]? = some inp)
    (hu : (get_utxo s inp.previous_txid inp.previous_output_index).isSome = true)
    (hp : (bytes_split inp.signature_script).length < 2) :
    validate_transaction_signature verify tx i s = true := by
  unfold validate_transaction_signature
  rw [hi]
  dsimp only
  rcases hg : get_utxo s inp.previous_txid inp.previous_output_index with _ | u
  · rw [hg] at hu
    exact Bool.noConfusion hu
  · dsimp only
    by_cases hs : inp.signature_script = []
    · rw [if_pos hs]
    · rw [if_neg hs]
      rw [if_pos hp]

/-- C6 (amended): a rejected `add_block` call leaves every component of
the chain state unchanged except, possibly, the stored `difficulty_bits`
(which `_get_next_difficulty` may overwrite at an adjustment boundary
before the rejection). -/
theorem c6_rejected_add_block_frame (d : Digest) (now : Nat) (c : Blockchain)
    (block : Block) (c2 : Blockchain)
    (heq : add_block d now c block = (c2, false)) : SameButBits c2 c := by
  simp only [add_block] at heq
  repeat' split at heq
  all_goals injection heq with h1 h2
  all_goals try exact Bool.noConfusion h2
  all_goals subst h1
  all_goals
    first
      | exact sameButBits_refl _
      | (next hv =>
          have hf := validate_block_frame d now block c
          rw [hv] at hf
          exact hf)

/-- C1 (amended): in the detected-fork case the fork choice compares
heights, not cumulative work: the accepted side-branch block triggers a
reorganization (whose success moves the best tip to it) exactly when its
height strictly exceeds the current best-chain height; otherwise the best
tip is left unchanged. -/
theorem c1_fork_choice_amended (d : Digest) (now : Nat) (c c1 c2 : Blockchain)
    (block : Block) (bh t : Bytes) (height : Int) (r : Bool)
    (hbh : block_hash d block.header = bh)
    (hnd : get_block c bh = none)
    (hv : validate_block d now block c = (c1, Except.ok r))
    (hh : expected_height_of c1 block = height)
    (hc2 : store_block c1 bh ⟨block, some height⟩ height = c2)
    (ht : c2.best_chain_tip = some t)
    (hne : ¬ block.header.previous_block_hash = t)
    (hfork : detect_fork d c2 block = true) :
    (get_chain_height c2 < height →
        add_block d now c block = ((reorganize_chain d c2 bh).1, true) ∧
        ∀ c3, reorganize_chain d c2 bh = (c3, true) →
          c3.best_chain_tip = some bh) ∧
    (¬ get_chain_height c2 < height →
        add_block d now c block = (c2, true) ∧
        c2.best_chain_tip = c.best_chain_tip) := by
  subst hbh
  subst hh
  subst hc2
  have htip : (store_block c1 (block_hash d block.header)
      ⟨block, some (expected_height_of c1 block)⟩
      (expected_height_of c1 block)).best_chain_tip = c.best_chain_tip := by
    rw [store_block_tip]
    have hf := (validate_block_frame d now block c).2.2.2.1
    rw [hv] at hf
    exact hf
  have hstep : add_block d now c block =
      (if get_chain_height (store_block c1 (block_hash d block.header)
            ⟨block, some (expected_height_of c1 block)⟩
            (expected_height_of c1 block)) < expected_height_of c1 block then
        ((reorganize_chain d
            (store_block c1 (block_hash d block.header)
              ⟨block, some (expected_height_of c1 block)⟩
              (expected_height_of c1 block))
            (block_hash d block.header)).1, true)
      else
        (store_block c1 (block_hash d block.header)
          ⟨block, some (expected_height_of c1 block)⟩
          (expected_height_of c1 block), true)) := by
    simp only [add_block, hnd, Option.isSome_none]
    rw [if_neg (by simp)]
    rw [hv]
    dsimp only
    rw [ht]
    rw [if_neg (by simp)]
    rw [if_neg (by simpa using hne)]
    rw [hfork]
    rw [if_pos rfl]
    split
    · rfl
    · rfl
  constructor
  · intro hlt
    refine ⟨?_, fun c3 hr => reorganize_chain_tip d _ _ c3 hr⟩
    rw [hstep, if_pos hlt]
  · intro hnlt
    refine ⟨?_, htip⟩
    rw [hstep, if_neg hnlt]

/-- C10: the genesis block is stored, indexed, adopted as best tip and
applied to the UTXO set by the constructor alone — for an arbitrary digest
oracle, hence without any proof-of-work or other validation; every later
block, by contrast, is accepted by `add_block` only after `validate_block`
returns success. -/
theorem c10_genesis_bypasses_validation :
    (∀ (d : Digest) (mode : Bool),
      (init_blockchain d mode).best_chain_tip =
        some (block_hash d (create_genesis_block d
          (if mode then DEV_GENESIS_DIFFICULTY_BITS
            else GENESIS_DIFFICULTY_BITS)).header) ∧
      get_block (init_blockchain d mode)
          (block_hash d (create_genesis_block d
            (if mode then DEV_GENESIS_DIFFICULTY_BITS
              else GENESIS_DIFFICULTY_BITS)).header) =
        some ⟨create_genesis_block d
          (if mode then DEV_GENESIS_DIFFICULTY_BITS
            else GENESIS_DIFFICULTY_BITS), some 0⟩ ∧
      get_utxo (init_blockchain d mode).utxo_set
          (txid d ((create_genesis_block d
            (if mode then DEV_GENESIS_DIFFICULTY_BITS
              else GENESIS_DIFFICULTY_BITS)).transactions.headD default)) 0 =
        some ⟨5000000000, List.replicate 20 0, 0, true⟩) ∧
    ∀ (d : Digest) (now : Nat) (c : Blockchain) (b : Block),
      (add_block d now c b).2 = true →
      (validate_block d now b c).2 = Except.ok true := by
  constructor
  · intro d mode
    refine ⟨rfl, ?_, ?_⟩
    · simp [init_blockchain, get_block, apply_block, List.find?]
    · simp [init_blockchain, get_utxo, apply_block, create_genesis_block,
        create_coinbase, get_block_reward, add_tx_outputs, add_utxo, assoc_set,
        Transaction.is_coinbase, TransactionInput.is_coinbase, zeroHash,
        List.find?, INITIAL_REWARD, HALVING_INTERVAL]
  · intro d now c b h
    obtain ⟨c1, r, hv⟩ := add_block_accepted_validate d now c b h
    have hr := validate_block_ok_true d now b c c1 r hv
    subst hr
    rw [hv]


/-! ### Concrete executions

A concrete digest oracle for running the chain on explicit inputs: an
injective-enough polynomial accumulator reduced modulo a prime below
`2^41`, padded to 32 little-endian bytes.  Hashes produced this way are
far below every target in play, so proof of work always succeeds, and the
chosen inputs have pairwise distinct digests (checked by `decide` where it
matters). -/
def toyDigest : Digest := fun bs =>
  int_to_little_endian ((bs.foldl (fun a b => a * 256 + b) 1) % 1099511627689) 32

/-- A single-coinbase block template for the executions below: coinbase of
`5_000_000_000` satoshis to a 20-byte tag address, dev difficulty bits,
the genesis timestamp, nonce 0. -/
def mkBlock (prev : Bytes) (h : Int) (tag : Nat) : Block :=
  let cb := create_coinbase h (List.replicate 20 tag) 5000000000 0
  { header :=
      { version := 1, previous_block_hash := prev,
        merkle_root := txid toyDigest cb, timestamp := 1231006505,
        difficulty_bits := DEV_GENESIS_DIFFICULTY_BITS, nonce := 0 },
    transactions := [cb] }

/-- Wall-clock instant used by the executions (the genesis timestamp). -/
def nowA : Nat := 1231006505

/-- The dev-mode genesis block. -/
def gA : Block := create_genesis_block toyDigest DEV_GENESIS_DIFFICULTY_BITS

/-- Main-branch blocks at heights 1–4. -/
def bA1 : Block := mkBlock (block_hash toyDigest gA.header) 1 1

/-- Height-2 main-branch block. -/
def bA2 : Block := mkBlock (block_hash toyDigest bA1.header) 2 2

/-- Height-3 main-branch block. -/
def bA3 : Block := mkBlock (block_hash toyDigest bA2.header) 3 3

/-- Height-4 main-branch block. -/
def bA4 : Block := mkBlock (block_hash toyDigest bA3.header) 4 4

/-- Side-branch block at height 2 (second child of `bA1`). -/
def cA1 : Block := mkBlock (block_hash toyDigest bA1.header) 2 5

/-- Side-branch block at height 3 (only child of `cA1`). -/
def cA2 : Block := mkBlock (block_hash toyDigest cA1.header) 3 6

/-- The state reached by adding, in order, the four main-branch blocks,
then the competing `cA1`, then its child `cA2`. -/
def stateA : Blockchain :=
  [bA1, bA2, bA3, bA4, cA1, cA2].foldl
    (fun s b => (add_block toyDigest nowA s b).1)
    (init_blockchain toyDigest true)

/-- Cumulative work of the chain ending at `tip`, as the claim defines it:
`Σ 2^256 / (target + 1)` over the chain's blocks. -/
def chain_work (c : Blockchain) (tip : Bytes) : Nat :=
  ((get_chain c (some tip)).map
    (fun sb => 2 ^ 256 / (get_target sb.block.header.difficulty_bits + 1))).sum

/-- The development-mode chain state right after construction. -/
def c0 : Blockchain := init_blockchain toyDigest true

/-- The genesis coinbase transaction of the `toyDigest` dev chain. -/
def gCb : Transaction := gA.transactions.headD default

/-- A solved two-transaction block: coinbase paying 50 BTC to a tag
address, plus one further transaction; the merkle root is computed from
the actual transaction list. -/
def mkBlock2 (prev : Bytes) (h : Int) (tag : Nat) (tx2 : Transaction) : Block :=
  let cb := create_coinbase h (List.replicate 20 tag) 5000000000 0
  let txs := [cb, tx2]
  { header :=
      { version := 1, previous_block_hash := prev,
        merkle_root := calculate_merkle_root toyDigest ⟨default, txs⟩,
        timestamp := 1231006505,
        difficulty_bits := DEV_GENESIS_DIFFICULTY_BITS, nonce := 0 },
    transactions := txs }

/-- A transaction spending the genesis coinbase output (wallet-style
signature script: one unbroken run of bytes, no whitespace). -/
def dSpend : Transaction :=
  { version := 1,
    inputs := [⟨txid toyDigest gCb, 0, List.replicate 140 97, 0xffffffff⟩],
    outputs := [⟨4000000000, List.replicate 20 7⟩],
    locktime := 0 }

/-- A height-1 block spending the height-0 (genesis) coinbase: only one
confirmation, far below the 100-block maturity. -/
def dB1 : Block := mkBlock2 (block_hash toyDigest gA.header) 1 31 dSpend

/-- A transaction spending the 50 BTC genesis coinbase into 60 BTC of
outputs: its fee is −10 BTC. -/
def eSpend : Transaction :=
  { version := 1,
    inputs := [⟨txid toyDigest gCb, 0, List.replicate 140 98, 0xffffffff⟩],
    outputs := [⟨6000000000, List.replicate 20 9⟩],
    locktime := 0 }

/-- A height-1 block whose coinbase claims the full 50 BTC reward on top
of a −10 BTC total fee. -/
def eB1 : Block := mkBlock2 (block_hash toyDigest gA.header) 1 41 eSpend

/-- Height-5 extension of the main branch. -/
def fB5 : Block := mkBlock (block_hash toyDigest bA4.header) 5 5

/-- Height-6 extension. -/
def fB6 : Block := mkBlock (block_hash toyDigest fB5.header) 6 6

/-- Height-7 extension. -/
def fB7 : Block := mkBlock (block_hash toyDigest fB6.header) 7 7

/-- Height-8 extension. -/
def fB8 : Block := mkBlock (block_hash toyDigest fB7.header) 8 8

/-- Height-9 extension. -/
def fB9 : Block := mkBlock (block_hash toyDigest fB8.header) 9 9

/-- A linear dev chain of nine blocks above genesis: the next accepted
height, 10, is a difficulty-adjustment boundary
(`DEV_DIFFICULTY_ADJUSTMENT_INTERVAL = 10`). -/
def stateB : Blockchain :=
  [bA1, bA2, bA3, bA4, fB5, fB6, fB7, fB8, fB9].foldl
    (fun s b => (add_block toyDigest nowA s b).1) c0

/-- A height-10 candidate carrying the chain's current difficulty bits
`0x1f0fffff` — rejected, because `_get_next_difficulty` retargets at
height 10 and its result is capped at the *mainnet* maximum target
`0x1d00ffff`. -/
def dB10 : Block := mkBlock (block_hash toyDigest fB9.header) 10 10

/-- The main branch of scenario A before the side branch appears. -/
def stateA4 : Blockchain :=
  [bA1, bA2, bA3, bA4].foldl (fun s b => (add_block toyDigest nowA s b).1) c0

/-- A digest oracle whose every hash is `2^256 − 1` in display order: no
header can meet any difficulty target under it. -/
def badDigest : Digest := fun _ => List.replicate 32 255

/-- Spec-modelled (follows the specification's words, for comparison with
`validate_coinbase`, whose `total_fees` accumulator is constantly zero):
the total transaction fees of a block, `Σ (input values − output values)`
over its non-coinbase transactions, resolving inputs in the given UTXO
set; `none` when an input is unresolvable. -/
def spec_total_fees (s : UTXOSet) : List Transaction → Option Int
  | [] => some 0
  | tx :: rest =>
    if tx.is_coinbase then spec_total_fees s rest
    else
      match total_input_value s tx.inputs with
      | none => none
      | some tin =>
        (spec_total_fees s rest).map
          (fun acc => acc + (tin - (tx.outputs.map (·.value)).sum))

/-- Txid key of a UTXO entry used by the C5 scenario. -/
def c5PrevTxid : Bytes := List.replicate 32 17

/-- A wallet-style signature script: signature hex and public-key hex
concatenated with no separator (`Wallet.sign_transaction` writes
`sig_hex + pubkey_hex`), hence a single whitespace-free token. -/
def c5Script : Bytes := List.replicate 70 97 ++ List.replicate 66 98

/-- A non-coinbase transaction carrying the unparseable script. -/
def c5Tx : Transaction :=
  { version := 1,
    inputs := [⟨c5PrevTxid, 0, c5Script, 0xffffffff⟩],
    outputs := [⟨1, List.replicate 20 2⟩],
    locktime := 0 }

/-- A UTXO set resolving the C5 transaction's input. -/
def c5UtxoSet : UTXOSet :=
  [((c5PrevTxid, 0), ⟨5, List.replicate 20 3, 0, false⟩)]

set_option maxRecDepth 1000000 in
set_option maxHeartbeats 16000000 in
/-- C1 counterexample: in the reachable state `stateA` (obtained from six
`add_block` calls, all accepted), the best chain tip is `cA2`, yet the
known tip `bA4` heads a chain of strictly greater cumulative work
(`Σ 2^256 / (target + 1)`), so `best_chain_tip` is not the tip of maximum
cumulative work. -/
theorem c1_fork_choice_counterexample :
    (([bA1, bA2, bA3, bA4, cA1, cA2].foldl
        (fun (st : Blockchain × List Bool) b =>
          let r := add_block toyDigest nowA st.1 b
          (r.1, st.2 ++ [r.2]))
        (init_blockchain toyDigest true, [])).2 =
        [true, true, true, true, true, true]) ∧
    stateA.best_chain_tip = some (block_hash toyDigest cA2.header) ∧
    block_hash toyDigest bA4.header ∈ stateA.chain_tips ∧
    chain_work stateA (block_hash toyDigest cA2.header) <
      chain_work stateA (block_hash toyDigest bA4.header) := by
  decide

set_option maxRecDepth 1000000 in
set_option maxHeartbeats 16000000 in
/-- C2: code-bug evidence.  In the reachable state `stateA` the UTXO set
holds the coinbase output of `bA4` although `bA4` is not on the best chain
(the best chain is genesis, `bA1`, `cA1`, `cA2`, and none of these blocks
contains that transaction), and it lacks the coinbase output of `cA1`
although `cA1` is on the best chain: `add_block` adopted `cA2` through its
unconditional `else` arm, which applies only the new block to the UTXO set
without reorganizing. -/
theorem c2_utxo_best_chain_divergence :
    (get_utxo stateA.utxo_set
        (txid toyDigest (bA4.transactions.headD default)) 0).isSome = true ∧
    ((get_chain stateA none).map
        (fun sb => block_hash toyDigest sb.block.header) =
      [block_hash toyDigest gA.header, block_hash toyDigest bA1.header,
        block_hash toyDigest cA1.header, block_hash toyDigest cA2.header]) ∧
    ((get_chain stateA none).all (fun sb =>
        ¬ sb.block.transactions.any (fun tx =>
          txid toyDigest tx = txid toyDigest (bA4.transactions.headD default)))
      = true) ∧
    get_utxo stateA.utxo_set
      (txid toyDigest (cA1.transactions.headD default)) 0 = none := by
  decide

set_option maxRecDepth 1000000 in
set_option maxHeartbeats 16000000 in
/-- C3: code-bug evidence.  The block `dB1` at height 1 spends the height-0
genesis coinbase after a single confirmation, yet `add_block` accepts it:
`validate_transaction`'s call to `validate_coinbase_maturity` passes a
`maturity=` keyword the function does not take, so it raises `TypeError`
(second conjunct), which `validate_block`'s check 7 swallows.  The maturity
rule itself, invoked as defined, rejects the spend at height 1 and accepts
it at height 100 (third and fourth conjuncts). -/
theorem c3_maturity_check_unreachable :
    (add_block toyDigest nowA c0 dB1).2 = true ∧
    check_tx_inputs c0.utxo_set dSpend.inputs = Except.error PyErr.typeError ∧
    validate_coinbase_maturity (txid toyDigest gCb) 0
      ((get_utxo c0.utxo_set (txid toyDigest gCb) 0).getD ⟨0, [], 0, false⟩) 1 =
      Except.error PyErr.valueError ∧
    validate_coinbase_maturity (txid toyDigest gCb) 0
      ((get_utxo c0.utxo_set (txid toyDigest gCb) 0).getD ⟨0, [], 0, false⟩) 100 =
      Except.ok true := by
  decide

set_option maxRecDepth 1000000 in
set_option maxHeartbeats 16000000 in
/-- C4 counterexample: the block `eB1` is accepted although its coinbase
claims 50 BTC while `block_reward(1) + Σ fees = 50 − 10 = 40` BTC: the
fee total the source computes is constantly zero and the conservation
check that would reject the −10 BTC fee transaction is unreachable. -/
theorem c4_coinbase_fee_counterexample :
    (add_block toyDigest nowA c0 eB1).2 = true ∧
    ((eB1.transactions.headD default).outputs.map (·.value)).sum = 5000000000 ∧
    get_block_reward (expected_height_of c0 eB1) = some 5000000000 ∧
    spec_total_fees c0.utxo_set eB1.transactions = some (-1000000000) ∧
    ¬ ((5000000000 : Int) ≤ 5000000000 + -1000000000) := by
  decide

set_option maxRecDepth 1000000 in
set_option maxHeartbeats 16000000 in
/-- C6 counterexample: the height-10 candidate `dB10` is rejected
(difficulty-bits mismatch at the dev retarget boundary, where the new
target is capped at the mainnet maximum), yet the rejected call leaves the
chain's stored `difficulty_bits` changed from `0x1f0fffff` to
`0x1d00ffff`: `_get_next_difficulty` stores the recalculated bits before
the comparison that then fails. -/
theorem c6_rejection_mutates_difficulty :
    (add_block toyDigest nowA stateB dB10).2 = false ∧
    stateB.difficulty_bits = 0x1f0fffff ∧
    (add_block toyDigest nowA stateB dB10).1.difficulty_bits = 0x1d00ffff := by
  decide

set_option maxRecDepth 1000000 in
/-- C5 counterexample: with the strictest possible verifier (rejects
everything), a transaction whose signature script is a wallet-style
concatenation (one whitespace-free token, so it cannot be parsed into a
signature/public-key pair) still passes signature validation — there is no
consensus-mode switch to prevent it. -/
theorem c5_unparseable_signature_counterexample :
    (bytes_split c5Script).length = 1 ∧
    ∀ verify : Bytes → Bytes → Bytes → Option Bool,
      validate_transaction_signature verify c5Tx 0 c5UtxoSet = true :=
  ⟨by decide, fun verify => rfl⟩

set_option maxRecDepth 1000000 in
set_option maxHeartbeats 16000000 in
/-- Witness for C5's amended statement at a concrete input with an
everything-rejecting verifier. -/
theorem c5_unparseable_signature_witness :
    validate_transaction_signature (fun _ _ _ => some false) c5Tx 0 c5UtxoSet =
      true :=
  c5_unparseable_signature_amended (fun _ _ _ => some false) c5Tx 0 c5UtxoSet
    ⟨c5PrevTxid, 0, c5Script, 0xffffffff⟩ (by decide) (by decide) (by decide)

set_option maxRecDepth 1000000 in
set_option maxHeartbeats 16000000 in
/-- Witness for C1's amended statement: adding the height-2 side-branch
block `cA1` to the height-4 chain `stateA4` stores it but leaves the best
tip unchanged (2 is not greater than 4). -/
theorem c1_fork_choice_amended_witness :
    add_block toyDigest nowA stateA4 cA1 =
      (store_block (validate_block toyDigest nowA cA1 stateA4).1
        (block_hash toyDigest cA1.header) ⟨cA1, some 2⟩ 2, true) ∧
    (store_block (validate_block toyDigest nowA cA1 stateA4).1
        (block_hash toyDigest cA1.header) ⟨cA1, some 2⟩ 2).best_chain_tip =
      stateA4.best_chain_tip :=
  (c1_fork_choice_amended toyDigest nowA stateA4
      (validate_block toyDigest nowA cA1 stateA4).1
      (store_block (validate_block toyDigest nowA cA1 stateA4).1
        (block_hash toyDigest cA1.header) ⟨cA1, some 2⟩ 2)
      cA1 (block_hash toyDigest cA1.header) (block_hash toyDigest bA4.header)
      2 true rfl (by decide) (by decide) (by decide) rfl (by decide)
      (by decide) (by decide)).2 (by decide)

set_option maxRecDepth 1000000 in
set_option maxHeartbeats 16000000 in
/-- Witness for C4's amended statement at the accepted block `bA1`. -/
theorem c4_coinbase_reward_bound_witness :
    ∃ reward : Nat,
      get_block_reward (expected_height_of c0 bA1) = some reward ∧
      ((bA1.transactions.headD default).outputs.map (·.value)).sum ≤
        (reward : Int) :=
  c4_coinbase_reward_bound_amended toyDigest nowA c0 bA1 (by decide)

set_option maxRecDepth 1000000 in
set_option maxHeartbeats 16000000 in
/-- Witness for C6's amended statement at the rejected retarget-boundary
block `dB10`. -/
theorem c6_rejected_add_block_frame_witness :
    SameButBits (add_block toyDigest nowA stateB dB10).1 stateB :=
  c6_rejected_add_block_frame toyDigest nowA stateB dB10
    (add_block toyDigest nowA stateB dB10).1 (by decide)

set_option maxRecDepth 1000000 in
set_option maxHeartbeats 16000000 in
/-- Witness for C7: a coinbase transaction is rejected by the empty
mempool, and the mempool reached by one successful add is conflict-free. -/
theorem c7_mempool_first_seen_witness :
    mempool_add_transaction toyDigest Mempool.empty gCb none =
      (Mempool.empty, false) ∧
    MempoolDisjoint
      (mempool_add_transaction toyDigest Mempool.empty dSpend
        (some c0.utxo_set)).1 :=
  ⟨c7_mempool_first_seen.1 toyDigest Mempool.empty gCb none
      (Or.inr (Or.inl (by decide))),
    c7_mempool_first_seen.2 _
      (MempoolReachable.add toyDigest Mempool.empty dSpend (some c0.utxo_set)
        MempoolReachable.empty)⟩

set_option maxRecDepth 1000000 in
set_option maxHeartbeats 16000000 in
/-- Witness for C10: under a digest oracle whose hashes can never satisfy
proof of work, construction still installs the genesis block as best tip;
and a concretely accepted block was indeed validated. -/
theorem c10_genesis_bypasses_validation_witness :
    (init_blockchain badDigest true).best_chain_tip =
      some (block_hash badDigest
        (create_genesis_block badDigest DEV_GENESIS_DIFFICULTY_BITS).header) ∧
    meets_difficulty_target badDigest
      (create_genesis_block badDigest DEV_GENESIS_DIFFICULTY_BITS).header =
      false ∧
    (validate_block toyDigest nowA bA1 c0).2 = Except.ok true :=
  ⟨(c10_genesis_bypasses_validation.1 badDigest true).1, by decide,
    c10_genesis_bypasses_validation.2 toyDigest nowA c0 bA1 (by decide)⟩

end BtcChain
